import Mathlib

/-!
The program jirabranch: a shallow embedding of `src/main/jirabranch.go` and the proofs of its
specification.

The program reads lines from standard input, looks in each for a ticket key
with the regular expression `branchMatcher`, asks the tracker for the ticket
and prints one description per line, falling back on the trimmed line.

* Go strings are lists of characters (well-formed UTF-8 text).
* `regexp` is modelled by a backtracking matcher with leftmost-first
  priorities, the semantics the Go package documents.
* `fmt.Sprintf`, `strings.TrimSpace`, `encoding/json` and `fatih/color` are
  modelled after their documented behaviour, as far as the program uses them.
* `net/http` is a parameter, `Env`; every effect of `getBranchDescription`
  (requests built and sent, lines printed) is recorded in a trace.
* `main` is a transition system: one step of main or of a task at a time,
  in any interleaving, with the WaitGroup counter and standard output as
  shared state.
-/

namespace JiraBranch

/-- A Go string, as the list of its characters. -/
abbrev Str := List Char

/-! ## regexp -/

/-- The class written backslash-s in a Go regular expression: tab, newline,
form feed, carriage return and space. -/
def isSpaceRe (c : Char) : Bool :=
  c = '\t' || c = '\n' || c.toNat = 12 || c = '\r' || c = ' '

/-- The class written backslash-w: ASCII letters, digits and the underscore. -/
def isWordChar (c : Char) : Bool :=
  (48 ≤ c.toNat && c.toNat ≤ 57) || (65 ≤ c.toNat && c.toNat ≤ 90) || c = '_' ||
    (97 ≤ c.toNat && c.toNat ≤ 122)

/-- The class written backslash-d: the ASCII digits. -/
def isDigit (c : Char) : Bool := 48 ≤ c.toNat && c.toNat ≤ 57

/-- The regular expressions branchMatcher is built from: a character class,
concatenation, the greedy star, plus and question mark, and a numbered
capture group. -/
inductive Regex where
  | cls (p : Char → Bool)
  | cat (a b : Regex)
  | star (a : Regex)
  | plus (a : Regex)
  | quest (a : Regex)
  | group (n : Nat) (a : Regex)

/-- The text captured so far by each group, most recent first. -/
abbrev Caps := List (Nat × Str)

/-- The greedy repetition of a matcher: one more iteration is tried first (an
iteration has to consume input), then the rest of the expression. -/
def Regex.loop {α : Type} (step : Str → Caps → (Str → Caps → Option α) → Option α) :
    Nat → Str → Caps → (Str → Caps → Option α) → Option α
  | 0, s, c, k => k s c
  | n + 1, s, c, k =>
    (step s c (fun s1 c1 => if s1.length < s.length then loop step n s1 c1 k else none)).orElse
      (fun _ => k s c)

/-- Backtracking matching from the head of a text: the alternatives are tried
in the order of preference of Go (greedy operators take as much as they can
first), and the continuation k stands for the rest of the expression. -/
def Regex.run {α : Type} : Regex → Str → Caps → (Str → Caps → Option α) → Option α
  | .cls p, s, c, k =>
    match s with
    | [] => none
    | x :: xs => if p x then k xs c else none
  | .cat a b, s, c, k => run a s c (fun s1 c1 => run b s1 c1 k)
  | .star a, s, c, k => Regex.loop (run a) s.length s c k
  | .plus a, s, c, k => run a s c (fun s1 c1 => Regex.loop (run a) s1.length s1 c1 k)
  | .quest a, s, c, k => (run a s c k).orElse (fun _ => k s c)
  | .group n a, s, c, k =>
    run a s c (fun s1 c1 => k s1 ((n, s.take (s.length - s1.length)) :: c1))

/-- Line 19: the expression `\\s*\\*?\\s*(\\w+-\\d+).*`. -/
def branchMatcher : Regex :=
  .cat (.star (.cls isSpaceRe))
    (.cat (.quest (.cls (fun c => c = '*')))
      (.cat (.star (.cls isSpaceRe))
        (.cat (.group 1 (.cat (.plus (.cls isWordChar))
            (.cat (.cls (fun c => c = '-')) (.plus (.cls isDigit)))))
          (.star (.cls (fun c => c ≠ '\n'))))))

/-- The preferred match that starts at the head of a text: the text matched
and the captures. -/
def Regex.matchAt (re : Regex) (s : Str) : Option (Str × Caps) :=
  re.run s [] (fun rest c => some (s.take (s.length - rest.length), c))

/-- The leftmost match in a text: the start positions are tried from left to
right. -/
def Regex.search (re : Regex) : Str → Option (Str × Caps)
  | [] => re.matchAt []
  | x :: xs =>
    match re.matchAt (x :: xs) with
    | some r => some r
    | none => Regex.search re xs

/-- The method FindStringSubmatch: the empty slice when nothing matches, else
the text of the match followed by the text of each group, empty for a group
that took no part. -/
def Regex.FindStringSubmatch (re : Regex) (numSubexp : Nat) (s : Str) : List Str :=
  match re.search s with
  | none => []
  | some (whole, caps) =>
    whole :: (List.range numSubexp).map (fun i => ((caps.lookup (i + 1)).getD []))


/-! ## strings, fmt, color -/

/-- The function unicode.IsSpace. -/
def unicodeIsSpace (c : Char) : Bool :=
  (9 ≤ c.toNat && c.toNat ≤ 13) || c.toNat = 0x20 || c.toNat = 0x85 || c.toNat = 0xA0 ||
    c.toNat = 0x1680 || (0x2000 ≤ c.toNat && c.toNat ≤ 0x200a) || c.toNat = 0x2028 ||
    c.toNat = 0x2029 || c.toNat = 0x202f || c.toNat = 0x205f || c.toNat = 0x3000

/-- The function strings.TrimSpace: white space is removed at both ends. -/
def TrimSpace (s : Str) : Str := (s.dropWhile unicodeIsSpace).rdropWhile unicodeIsSpace

/-- The function strings.TrimRight. -/
def TrimRight (s : Str) (cutset : Str) : Str := s.rdropWhile (fun c => cutset.contains c)

/-- The bound of fmt on a width, a precision or an index. -/
def tooLarge (x : Nat) : Bool := decide (1000000 < x)

/-- The function parsenum of fmt on the text from the current index to the end of the format:
the value read, whether a number was read, and the text left. -/
def parsenum : Str → Nat → Bool → Nat × Bool × Str
  | [], num, isnum => (num, isnum, [])
  | c :: cs, num, isnum =>
    if isDigit c then
      if tooLarge num then (0, false, []) else parsenum cs (num * 10 + (c.toNat - 48)) true
    else (num, isnum, c :: cs)

/-- The flag characters of a formatting directive. -/
def isFlagChar (c : Char) : Bool := c = '#' || c = '0' || c = '+' || c = '-' || c = ' '

/-- The function parseArgNumber of fmt applied to text that starts with an opening bracket:
the width consumed and whether an index was read. -/
def parseArgNumber (format : Str) : Nat × Bool :=
  if format.length < 3 then (1, false)
  else
    match (format.drop 1).indexOf? ']' with
    | none => (1, false)
    | some j =>
      let inner := (format.drop 1).take j
      if inner.isEmpty then (j + 2, false)
      else
        match parsenum inner 0 false with
        | (_, ok, rest) => if !ok || !rest.isEmpty then (j + 2, false) else (j + 2, true)

/-- The method argNumber of fmt with an empty operand list: the text left, whether an index
was read, and the updated goodArgNum. -/
def argNumber (format : Str) (good : Bool) : Str × Bool × Bool :=
  match format with
  | '[' :: _ =>
    match parseArgNumber format with
    | (wid, ok) => (format.drop wid, ok, false)
  | _ => (format, false, good)

/-- One formatting directive of doPrintf (the text after a percent sign) with
an empty operand list: the text written and the format text left. A dot
starts a precision only when a character follows it; a dot that ends the
format is the verb. -/
def directive (format : Str) : Str × Str :=
  match argNumber (format.dropWhile isFlagChar) true with
  | (f2, after2, good2) =>
    let w : Str × Str × Bool × Bool :=
      match f2 with
      | '*' :: r => ("%!(BADWIDTH)".toList, r, false, good2)
      | _ =>
        match parsenum f2 0 false with
        | (_, present, r) => ([], r, after2, good2 && !(after2 && present))
    match w with
    | (out3, f3, after3, good3) =>
      let p : Str × Str × Bool × Bool :=
        match f3 with
        | '.' :: c :: r =>
          match argNumber (c :: r) (good3 && !after3) with
          | (r1, after, good) =>
            match r1 with
            | '*' :: r2 => ("%!(BADPREC)".toList, r2, false, good)
            | _ =>
              match parsenum r1 0 false with
              | (_, _, r2) => ([], r2, after, good)
        | _ => ([], f3, after3, good3)
      match p with
      | (out4, f4, after4, good4) =>
        match (if after4 then (f4, after4, good4) else argNumber f4 good4) with
        | (f5, _, good5) =>
          match f5 with
          | [] => (out3 ++ out4 ++ "%!(NOVERB)".toList, [])
          | verb :: r =>
            if verb = '%' then (out3 ++ out4 ++ ['%'], r)
            else if !good5 then (out3 ++ out4 ++ '%' :: '!' :: verb :: "(BADINDEX)".toList, r)
            else (out3 ++ out4 ++ '%' :: '!' :: verb :: "(MISSING)".toList, r)

/-- The loop of doPrintf with an empty operand list: plain text is copied, a
percent sign starts a directive. The first argument bounds the number of
passes and is the length of the format. -/
def doPrintf : Nat → Str → Str
  | 0, _ => []
  | _ + 1, [] => []
  | n + 1, c :: cs =>
    if c = '%' then
      match directive cs with
      | (out, rest) => out ++ doPrintf n rest
    else c :: doPrintf n cs

/-- The call fmt.Sprintf(format) with no operands. -/
def Sprintf0 (format : Str) : Str := doPrintf format.length format

/-- The function returned by color.New(attr).SprintfFunc(), called with a
format and no operands; noColor is the package variable color.NoColor. -/
def SprintfFunc (attr : Str) (noColor : Bool) (format : Str) : Str :=
  if noColor then Sprintf0 format
  else "\x1b[".toList ++ attr ++ "m".toList ++ Sprintf0 format ++ "\x1b[0m".toList

/-- Lines 27 to 35: the colors the program uses, red for an unresolved state,
green for a resolved one and cyan for the URL. -/
def red : Bool → Str → Str := SprintfFunc "31".toList
def green : Bool → Str → Str := SprintfFunc "32".toList
def cyan : Bool → Str → Str := SprintfFunc "36".toList


/-! ## the ticket record and its description -/

/-- Lines 21 to 25. -/
structure jiraSettings where
  rootUrl : Str
  user : Str
  pw : Str

/-- A JSON object with the single member name. -/
structure Named where
  Name : Str := []

structure Watches where
  IsWatching : Bool := false
  Self : Str := []
  WatchCount : Int := 0

structure Fields where
  Created : Str := []
  Resolution : Named := {}
  Resolutiondate : Str := []
  Status : Named := {}
  Summary : Str := []
  Updated : Str := []
  Watches : Watches := {}
  Workratio : Int := 0

/-- Lines 76 to 97. -/
structure TicketInfo where
  URL : Str := []
  Fields : Fields := {}
  Key : Str := []

/-- Lines 99 to 113. The four verbs of the format write their string operands
as they are; noColor is the package variable color.NoColor. -/
def TicketInfo.Description (noColor : Bool) (ti : TicketInfo) (includeUrl : Bool) : Str :=
  let state := ti.Fields.Status.Name
  let styled : (Bool → Str → Str) × Str :=
    if 0 < ti.Fields.Resolutiondate.length then
      (green, state ++ ": ".toList ++ ti.Fields.Resolution.Name)
    else (red, state)
  let URL : Str := if !includeUrl then [] else ti.URL
  let out := ti.Key ++ " (".toList ++ styled.1 noColor styled.2 ++ ") ".toList ++
    ti.Fields.Summary ++ " ".toList ++ cyan noColor URL
  TrimSpace out

/-! ## encoding/json: decoding a parsed JSON value into TicketInfo -/

/-- A JSON number: an integer literal, or a literal with a fraction or an
exponent, kept as its text. -/
inductive NumLit where
  | int (i : Int)
  | real (literal : Str)
  deriving DecidableEq

/-- The text of a number literal, as a type error of encoding/json quotes it. -/
def NumLit.text : NumLit → Str
  | .int i => (toString i).toList
  | .real literal => literal

/-- A JSON value. -/
inductive Json where
  | null
  | bool (b : Bool)
  | num (n : NumLit)
  | str (s : Str)
  | arr (xs : List Json)
  | obj (kvs : List (Str × Json))

/-- The errors the program can meet, by origin: http.NewRequest, the
transport, the reading of the body, and the two errors of json.Unmarshal. -/
inductive GoError where
  | request (msg : Str)
  | transport (msg : Str)
  | read (msg : Str)
  | invalidJson (msg : Str)
  | unmarshalType (value : Str) (field : Str)
  deriving DecidableEq

/-- Case folding of the characters that can match an ASCII letter. -/
def foldChar (c : Char) : Char :=
  if 65 ≤ c.toNat && c.toNat ≤ 90 then Char.ofNat (c.toNat + 32)
  else if c.toNat = 0x212A then 'k'
  else if c.toNat = 0x17F then 's'
  else c

/-- Equality of a field name and an object key under case folding. -/
def equalFold (name key : Str) : Bool := name.map foldChar = key.map foldChar

/-- The struct field a JSON object key selects: an exact name first, otherwise
the first name equal under case folding. -/
def fieldFor (names : List Str) (key : Str) : Option Str :=
  (names.find? (fun n => n = key)).orElse (fun _ => names.find? (fun n => equalFold n key))

/-- The name encoding/json gives the kind of a value in a type error. -/
def Json.kind : Json → Str
  | .null => "null".toList
  | .bool _ => "bool".toList
  | .num _ => "number".toList
  | .str _ => "string".toList
  | .arr _ => "array".toList
  | .obj _ => "object".toList

/-- Decoding into a string field: null leaves it, a string sets it, anything
else is a type error. -/
def storeString (field : Str) (cur : Str) : Json → Str × List GoError
  | .null => (cur, [])
  | .str s => (s, [])
  | v => (cur, [.unmarshalType v.kind field])

/-- Decoding into a bool field. -/
def storeBool (field : Str) (cur : Bool) : Json → Bool × List GoError
  | .null => (cur, [])
  | .bool b => (b, [])
  | v => (cur, [.unmarshalType v.kind field])

/-- Decoding into an int field: only an integer literal in the range of int64;
for any other number the type error names the value as the word number
followed by the literal. -/
def storeInt (field : Str) (cur : Int) : Json → Int × List GoError
  | .null => (cur, [])
  | .num (.int i) =>
    if -9223372036854775808 ≤ i ∧ i ≤ 9223372036854775807 then (i, [])
    else (cur, [.unmarshalType ("number ".toList ++ (NumLit.int i).text) field])
  | .num (.real literal) =>
    (cur, [.unmarshalType ("number ".toList ++ (NumLit.real literal).text) field])
  | v => (cur, [.unmarshalType v.kind field])

/-- Decoding a JSON value into a struct: null leaves it unchanged, an
object is decoded member by member in order, anything else is a type error. -/
def storeStruct {α : Type} (field : Str) (names : List Str)
    (member : Str → α → Json → α × List GoError) (cur : α) : Json → α × List GoError
  | .null => (cur, [])
  | .obj kvs =>
    kvs.foldl (fun acc kv =>
      match fieldFor names kv.1 with
      | none => acc
      | some n =>
        match member n acc.1 kv.2 with
        | (v, errs) => (v, acc.2 ++ errs)) (cur, [])
  | v => (cur, [.unmarshalType v.kind field])

/-- Decoding into a struct with the single field name. -/
def storeNamed (field : Str) : Named → Json → Named × List GoError :=
  storeStruct field ["name".toList] (fun _ cur v =>
    match storeString (field ++ ".name".toList) cur.Name v with
    | (s, errs) => ({ cur with Name := s }, errs))

/-- Decoding into the struct Watches. -/
def storeWatches (field : Str) : Watches → Json → Watches × List GoError :=
  storeStruct field ["isWatching".toList, "self".toList, "watchCount".toList] (fun n cur v =>
    if n = "isWatching".toList then
      match storeBool (field ++ ".isWatching".toList) cur.IsWatching v with
      | (b, errs) => ({ cur with IsWatching := b }, errs)
    else if n = "self".toList then
      match storeString (field ++ ".self".toList) cur.Self v with
      | (s, errs) => ({ cur with Self := s }, errs)
    else
      match storeInt (field ++ ".watchCount".toList) cur.WatchCount v with
      | (i, errs) => ({ cur with WatchCount := i }, errs))

/-- The JSON names of the members of Fields. -/
def fieldsNames : List Str :=
  ["created".toList, "resolution".toList, "resolutiondate".toList, "status".toList,
    "summary".toList, "updated".toList, "watches".toList, "workratio".toList]

/-- Decoding into the struct Fields. -/
def storeFields (field : Str) : Fields → Json → Fields × List GoError :=
  storeStruct field fieldsNames (fun n cur v =>
    if n = "created".toList then
      match storeString (field ++ ".created".toList) cur.Created v with
      | (s, errs) => ({ cur with Created := s }, errs)
    else if n = "resolution".toList then
      match storeNamed (field ++ ".resolution".toList) cur.Resolution v with
      | (s, errs) => ({ cur with Resolution := s }, errs)
    else if n = "resolutiondate".toList then
      match storeString (field ++ ".resolutiondate".toList) cur.Resolutiondate v with
      | (s, errs) => ({ cur with Resolutiondate := s }, errs)
    else if n = "status".toList then
      match storeNamed (field ++ ".status".toList) cur.Status v with
      | (s, errs) => ({ cur with Status := s }, errs)
    else if n = "summary".toList then
      match storeString (field ++ ".summary".toList) cur.Summary v with
      | (s, errs) => ({ cur with Summary := s }, errs)
    else if n = "updated".toList then
      match storeString (field ++ ".updated".toList) cur.Updated v with
      | (s, errs) => ({ cur with Updated := s }, errs)
    else if n = "watches".toList then
      match storeWatches (field ++ ".watches".toList) cur.Watches v with
      | (s, errs) => ({ cur with Watches := s }, errs)
    else
      match storeInt (field ++ ".workratio".toList) cur.Workratio v with
      | (i, errs) => ({ cur with Workratio := i }, errs))

/-- Decoding into TicketInfo; the untagged field URL has the JSON name URL. -/
def storeTicketInfo : TicketInfo → Json → TicketInfo × List GoError :=
  storeStruct "TicketInfo".toList ["URL".toList, "fields".toList, "key".toList] (fun n cur v =>
    if n = "URL".toList then
      match storeString "TicketInfo.URL".toList cur.URL v with
      | (s, errs) => ({ cur with URL := s }, errs)
    else if n = "fields".toList then
      match storeFields "TicketInfo.fields".toList cur.Fields v with
      | (s, errs) => ({ cur with Fields := s }, errs)
    else
      match storeString "TicketInfo.key".toList cur.Key v with
      | (s, errs) => ({ cur with Key := s }, errs))

/-- The response body as json.Unmarshal sees it: text that is not valid JSON
(a syntax error), or valid JSON text denoting a value. -/
inductive JsonText where
  | invalid (e : GoError)
  | valid (v : Json)

/-- The call json.Unmarshal(body, &ticket): the record after the call and the
error returned, the first type error met while decoding. -/
def Unmarshal (body : JsonText) (ticket : TicketInfo) : TicketInfo × Option GoError :=
  match body with
  | .invalid e => (ticket, some e)
  | .valid v =>
    match storeTicketInfo ticket v with
    | (t, errs) => (t, errs.head?)

/-! ## the environment: net/http and standard output -/

/-- An HTTP request: method, URL and the basic authentication set on it. -/
structure Request where
  method : Str
  url : Str
  basicAuth : Option (Str × Str) := none
  deriving DecidableEq

/-- An HTTP response: its status code and what ioutil.ReadAll(resp.Body)
returns, a read error or the whole body. -/
structure Response where
  StatusCode : Nat
  Body : Except GoError JsonText

/-- The world a lookup runs in: whether http.NewRequest rejects a URL, and
what http.DefaultClient.Do answers to a request. -/
structure Env where
  urlError : Str → Option GoError
  Do : Request → Except GoError Response

/-- The call http.NewRequest(method, url, nil). -/
def NewRequest (env : Env) (method url : Str) : Except GoError Request :=
  match env.urlError url with
  | some err => .error err
  | none => .ok { method := method, url := url }

/-- An operand of fmt.Println: a string or an error value. -/
inductive Operand where
  | str (s : Str)
  | err (e : GoError)
  deriving DecidableEq

/-- One call of fmt.Println, which writes its operands and a newline to
standard output. -/
inductive Write where
  | Println (operands : List Operand)
  deriving DecidableEq

/-- The effects of getBranchDescription: a request built, a request sent, a
write to standard output. -/
inductive Event where
  | newRequest (method url : Str)
  | send (req : Request)
  | stdout (w : Write)
  deriving DecidableEq

/-- The request path of line 124: rootUrl, then /rest/api/latest/issue/, then
the key. -/
def issueUrl (js : jiraSettings) (key : Str) : Str :=
  js.rootUrl ++ "/rest/api/latest/issue/".toList ++ key

/-- Lines 129 to 131: basic authentication is attached only when both the
user and the password are non-empty. -/
def setAuth (js : jiraSettings) (req : Request) : Request :=
  if 0 < js.user.length && 0 < js.pw.length then
    { req with basicAuth := some (js.user, js.pw) }
  else req

/-- The request a lookup of a key sends. -/
def lookupRequest (js : jiraSettings) (key : Str) : Request :=
  setAuth js { method := "GET".toList, url := issueUrl js key }

/-- Lines 115 to 157: the trace of effects and the string returned. -/
def getBranchDescription (env : Env) (noColor : Bool) (line : Str) (js : jiraSettings)
    (includeUrls : Bool) : List Event × Str :=
  let line := TrimSpace line
  let submatches := branchMatcher.FindStringSubmatch 1 line
  if submatches.length < 2 then ([], line)
  else
    let url := issueUrl js (submatches.getD 1 [])
    match NewRequest env "GET".toList url with
    | .error err => ([.newRequest "GET".toList url, .stdout (.Println [.err err])], line)
    | .ok req0 =>
      let req := setAuth js req0
      match env.Do req with
      | .error err =>
        ([.newRequest "GET".toList url, .send req, .stdout (.Println [.err err])], line)
      | .ok resp =>
        if resp.StatusCode ≠ 200 then ([.newRequest "GET".toList url, .send req], line)
        else
          match resp.Body with
          | .error err =>
            ([.newRequest "GET".toList url, .send req, .stdout (.Println [.err err])], line)
          | .ok body =>
            match Unmarshal body {} with
            | (_, some err) =>
              ([.newRequest "GET".toList url, .send req, .stdout (.Println [.err err])], line)
            | (ticket, none) =>
              let ticket := { ticket with URL := js.rootUrl ++ "/browse/".toList ++ ticket.Key }
              ([.newRequest "GET".toList url, .send req], ticket.Description noColor includeUrls)

/-! ## main: flags, the read loop and the resolver tasks -/

/-- One flag the flag package finds on the command line, by its name there. -/
inductive FlagSetting where
  | url (value : Str)
  | no_color (value : Bool)
  | no_links (value : Bool)

/-- The variables of main that the flags are bound to. -/
structure MainVars where
  js : jiraSettings := { rootUrl := "https://jira.mongodb.org/".toList, user := [], pw := [] }
  noColor : Bool := false
  noLinks : Bool := false

/-- The variable each registered flag stores into: StringVar(&js.rootUrl, "url"),
BoolVar(&noColor, "no-color") and BoolVar(&noColor, "no-links"). -/
def FlagSetting.store (v : MainVars) : FlagSetting → MainVars
  | .url value => { v with js := { v.js with rootUrl := value } }
  | .no_color value => { v with noColor := value }
  | .no_links value => { v with noColor := value }

/-- The call flag.Parse. -/
def flagParse (args : List FlagSetting) : MainVars := args.foldl FlagSetting.store {}

/-- What the run of main is given: the flags on the command line, the initial
value of color.NoColor, standard input (its bytes and the error that ends it,
none for io.EOF) and the network each task sees. -/
structure World where
  args : List FlagSetting
  NoColor : Bool
  stdinErr : Option GoError
  env : Nat → Env

/-- The call in.ReadString(byte 10) on the unread input: the text returned, and
the input left when the delimiter was found (none when the input ended first,
the call then returns an error). -/
def ReadString : Str → Str × Option Str
  | [] => ([], none)
  | c :: cs =>
    if c = '\n' then ([c], some cs)
    else
      match ReadString cs with
      | (line, rest) => (c :: line, rest)

/-- The writes to standard output in a trace. -/
def stdoutWrites : List Event → List Write
  | [] => []
  | .stdout w :: es => w :: stdoutWrites es
  | _ :: es => stdoutWrites es

/-- What the tasks read: the settings, color.NoColor and !noLinks. -/
structure Setup where
  js : jiraSettings
  NoColor : Bool
  includeUrls : Bool

/-- Lines 39 to 50 of main, before the read loop. -/
def World.setup (w : World) : Setup :=
  let v := flagParse w.args
  { js := { v.js with rootUrl := TrimRight v.js.rootUrl "/".toList },
    NoColor := if v.noColor then true else w.NoColor,
    includeUrls := !v.noLinks }

/-- The string the i-th task computes for its line: the call
getBranchDescription(line, js, !noLinks). -/
def ticketInfo (w : World) (i : Nat) (line : Str) : Str :=
  (getBranchDescription (w.env i) w.setup.NoColor line w.setup.js w.setup.includeUrls).2

/-- The writes to standard output made inside getBranchDescription by the
i-th task: the errors it prints. -/
def diagnostics (w : World) (i : Nat) (line : Str) : List Write :=
  stdoutWrites
    (getBranchDescription (w.env i) w.setup.NoColor line w.setup.js w.setup.includeUrls).1

/-- The writes to standard output of the task launched for a line, in order:
those of getBranchDescription, then fmt.Println(ticketInfo). -/
def taskWrites (w : World) (i : Nat) (line : Str) : List Write :=
  diagnostics w i line ++ [.Println [.str (ticketInfo w i line)]]

/-- Where main is: in the read loop, blocked in wg.Wait, returned, or exited
with status 1 after a read error. -/
inductive Pc where
  | reading
  | waiting
  | returned
  | exited
  deriving DecidableEq

/-- A launched task: its number, the line it captured, the writes it still has
to make, those made, and whether it has called wg.Done. -/
structure Task where
  id : Nat
  line : Str
  pending : List Write
  written : List Write := []
  done : Bool := false
  deriving DecidableEq

/-- The state of the process: the unread input, main, the WaitGroup counter,
the tasks and what standard output has received. -/
structure State where
  input : Str
  pc : Pc := .reading
  wg : Int := 0
  tasks : List Task := []
  stdout : List Write := []
  deriving DecidableEq

/-- Who takes the next step. -/
inductive Label where
  | main
  | task (i : Nat)

/-- Lines 62 to 67: wg.Add(1) and the go statement. -/
def State.launch (w : World) (s : State) (line : Str) : State :=
  { s with wg := s.wg + 1,
           tasks := s.tasks ++
             [{ id := s.tasks.length, line := line,
                pending := taskWrites w s.tasks.length line }] }

/-- Lines 52 to 73 of main as a transition system. One atomic step of the
process: of main (a pass of the read loop, or the return from wg.Wait) or of
the i-th task (its next write, or wg.Done). A step is refused once the process
has ended, for a task that does not exist or has finished, and for main
blocked in wg.Wait with a counter that is not zero. -/
def main.step (w : World) (s : State) : Label → Option State
  | .main =>
    match s.pc with
    | .reading =>
      match ReadString s.input with
      | (line, some rest) => some { s.launch w line with input := rest }
      | (line, none) =>
        match w.stdinErr with
        | some err =>
          some { s with input := [], pc := .exited,
                        stdout := s.stdout ++
                          [.Println [.str "error reading input: ".toList, .err err]] }
        | none => some { s.launch w line with input := [], pc := .waiting }
    | .waiting => if s.wg = 0 then some { s with pc := .returned } else none
    | _ => none
  | .task i =>
    if s.pc = .returned ∨ s.pc = .exited then none
    else
      match s.tasks[i]? with
      | none => none
      | some t =>
        if t.done then none
        else
          match t.pending with
          | x :: rest =>
            some { s with stdout := s.stdout ++ [x],
                          tasks := s.tasks.set i { t with pending := rest,
                                                          written := t.written ++ [x] } }
          | [] => some { s with wg := s.wg - 1, tasks := s.tasks.set i { t with done := true } }

/-- A run of main and its tasks under a schedule, the list of who steps next;
none when the schedule asks for a step that is refused. -/
def main.run (w : World) : State → List Label → Option State
  | s, [] => some s
  | s, l :: ls =>
    match main.step w s l with
    | none => none
    | some s1 => main.run w s1 ls

/-- The state in which the read loop starts. -/
def World.init (_w : World) (stdin : Str) : State := { input := stdin }


/-! ## specification-side definitions -/

/-- The part of branchMatcher after its optional prefix: the capture group
and the trailing dot-star. -/
def keyCore : Regex :=
  .cat (.group 1 (.cat (.plus (.cls isWordChar))
      (.cat (.cls (fun c => c = '-')) (.plus (.cls isDigit)))))
    (.star (.cls (fun c => c ≠ '\n')))

/-- The key that starts at the head of a text, with the text left after it:
the longest run of word characters, a hyphen, the longest run of digits. -/
def keyAt : Str → Option (Str × Str)
  | [] => none
  | x :: xs =>
    if isWordChar x then
      match xs.dropWhile isWordChar with
      | h :: y :: ys =>
        if h = '-' ∧ isDigit y then
          some (x :: xs.takeWhile isWordChar ++ '-' :: y :: ys.takeWhile isDigit,
            ys.dropWhile isDigit)
        else none
      | _ => none
    else none

/-- The key getBranchDescription looks up for a trimmed line: none when
FindStringSubmatch returns fewer than two strings, else submatch 1. -/
def capturedKey (line : Str) : Option Str :=
  if (branchMatcher.FindStringSubmatch 1 line).length < 2 then none
  else some ((branchMatcher.FindStringSubmatch 1 line).getD 1 [])

/-- The network side of a trace: the requests built and sent, without the
writes to standard output. -/
def lookups : List Event → List Event
  | [] => []
  | .stdout _ :: es => lookups es
  | e :: es => e :: lookups es

/-- The state text of the specification: the status name, followed by a
colon, a space and the resolution name when the resolution date is non-empty. -/
def stateText (t : TicketInfo) : Str :=
  if t.Fields.Resolutiondate = [] then t.Fields.Status.Name
  else t.Fields.Status.Name ++ ": ".toList ++ t.Fields.Resolution.Name

/-- The description of the specification for a record, styling off and the
URL included: key, state in parentheses, summary and browse URL, trimmed of
trailing whitespace. -/
def specDescription (baseURL : Str) (t : TicketInfo) : Str :=
  (t.Key ++ " (".toList ++ stateText t ++ ") ".toList ++ t.Fields.Summary ++ " ".toList ++
    (baseURL ++ "/browse/".toList ++ t.Key)).rdropWhile unicodeIsSpace

/-- The lines main launches a task for when standard input ends with io.EOF:
each newline-terminated line, then the text left at the end (empty or not). -/
def readLines : Str → List Str
  | [] => [[]]
  | c :: cs =>
    if c = '\n' then [c] :: readLines cs
    else
      match readLines cs with
      | [] => [[c]]
      | l :: ls => (c :: l) :: ls

/-- The invariant of the run of main on a standard input: the WaitGroup
counter counts the tasks that have not called Done, every task has written a
prefix of its writes, standard output holds exactly what the tasks have
written, and the tasks launched are those of the lines read so far. -/
structure Inv (w : World) (stdin : Str) (s : State) : Prop where
  wg_eq : s.wg = ((s.tasks.filter (fun t => !t.done)).length : Int)
  writes : ∀ t ∈ s.tasks,
    t.written ++ t.pending = taskWrites w t.id t.line ∧ (t.done = true → t.pending = [])
  out : s.pc = .exited ∨
    (s.stdout : Multiset Write) = ((s.tasks.flatMap (fun t => t.written) : List Write) : Multiset Write)
  reading : s.pc = .reading →
    s.tasks.map (fun t => (t.id, t.line)) ++ (readLines s.input).enumFrom s.tasks.length =
      (readLines stdin).enum
  finished : (s.pc = .waiting ∨ s.pc = .returned) →
    s.input = [] ∧ s.tasks.map (fun t => (t.id, t.line)) = (readLines stdin).enum
  returned : s.pc = .returned → s.wg = 0

/-- The shape of a ticket key: one or more word characters before the hyphen
and one or more digits after it. -/
def KeyShape (w d : Str) : Prop :=
  w ≠ [] ∧ (∀ c ∈ w, isWordChar c = true) ∧ d ≠ [] ∧ (∀ c ∈ d, isDigit c = true)

/-- A substring of the shape of a key starts at index i of the line. -/
def KeyStartsAt (line : Str) (i : Nat) : Prop :=
  ∃ pre w d post, pre.length = i ∧ KeyShape w d ∧ line = pre ++ (w ++ '-' :: d) ++ post


/-! ## concrete inputs -/

/-- The line of scenario 1. -/
def scenarioLine : Str := "feature/ABC-123-fix-bug\n".toList

/-- The settings of scenario 1. -/
def scenarioJs : jiraSettings :=
  { rootUrl := "https://jira.example.com".toList, user := [], pw := [] }

/-- The record of scenario 1: key ABC-123, status In Progress, summary Fix bug. -/
def scenarioBody : Json :=
  .obj [("key".toList, .str "ABC-123".toList),
    ("fields".toList, .obj [("status".toList, .obj [("name".toList, .str "In Progress".toList)]),
      ("summary".toList, .str "Fix bug".toList)])]

/-- A tracker that accepts every URL and gives every request the same answer. -/
def envOf (answer : Except GoError Response) : Env :=
  { urlError := fun _ => none, Do := fun _ => answer }

/-- A response with a status and a JSON body. -/
def respOf (status : Nat) (v : Json) : Response :=
  { StatusCode := status, Body := .ok (.valid v) }

/-- A transport error. -/
def connectionRefused : GoError := .transport "connection refused".toList

/-- A run of main with the flag -url https://jira.example.com, styling off,
standard input ended by io.EOF and the same tracker for every task. -/
def worldOf (env : Env) : World :=
  { args := [.url "https://jira.example.com".toList], NoColor := true, stdinErr := none,
    env := fun _ => env }

/-- A record without a key: status Open, summary x. -/
def noKeyBody : Json :=
  .obj [("fields".toList, .obj [("status".toList, .obj [("name".toList, .str "Open".toList)]),
    ("summary".toList, .str "x".toList)])]

/-- A record whose status name ends with a percent sign. -/
def percentBody : Json :=
  .obj [("key".toList, .str "ABC-1".toList),
    ("fields".toList, .obj [("status".toList, .obj [("name".toList, .str "100%".toList)]),
      ("summary".toList, .str "x".toList)])]

/-- The decoded record of scenario 1 with its browse URL. -/
def exampleTicket : TicketInfo :=
  { Key := "ABC-123".toList, URL := "https://jira.example.com/browse/ABC-123".toList,
    Fields := { Status := { Name := "In Progress".toList }, Summary := "Fix bug".toList } }

/-- The error of http.NewRequest for a URL without a scheme. -/
def missingScheme : GoError := .request "missing protocol scheme".toList

/-- Settings whose root URL is a single colon. -/
def colonJs : jiraSettings := { rootUrl := ":".toList, user := [], pw := [] }

/-- A tracker for the settings colonJs: http.NewRequest rejects the URL of the
issue ABC-1, which has no scheme. -/
def rejectingEnv : Env :=
  { urlError := fun url =>
      if url = ":/rest/api/latest/issue/ABC-1".toList then some missingScheme else none,
    Do := fun _ => .ok (respOf 200 scenarioBody) }

/-- The settings of scenario 1 with a user and a password. -/
def authJs : jiraSettings :=
  { rootUrl := "https://jira.example.com".toList, user := "u".toList, pw := "p".toList }

/-- A record with a key and nothing else. -/
def keyOnlyBody : Json := .obj [("key".toList, .str "X-1".toList)]

/-- The state main returns in when standard input is the single unterminated
line ABC-1 and the tracker answers 404. -/
def oneLineFinal : State :=
  { input := [], pc := .returned, wg := 0,
    tasks := [{ id := 0, line := "ABC-1".toList, pending := [],
                written := [.Println [.str "ABC-1".toList]], done := true }],
    stdout := [.Println [.str "ABC-1".toList]] }

/-- The state main returns in when standard input is a, newline, b, the tracker
is not asked anything, and the second task writes first. -/
def twoLinesFinal : State :=
  { input := [], pc := .returned, wg := 0,
    tasks := [{ id := 0, line := "a\n".toList, pending := [],
                written := [.Println [.str "a".toList]], done := true },
              { id := 1, line := "b".toList, pending := [],
                written := [.Println [.str "b".toList]], done := true }],
    stdout := [.Println [.str "b".toList], .Println [.str "a".toList]] }

/-! ## lemmas: the regular expression engine -/

theorem loop_cls_nil {α : Type} (p : Char → Bool) (n : Nat) (c : Caps)
    (k : Str → Caps → Option α) :
    Regex.loop (Regex.run (.cls p)) n [] c k = k [] c := by
  cases n <;> simp [Regex.loop, Regex.run]

theorem loop_cls_cons {α : Type} (p : Char → Bool) (n : Nat) (x : Char) (xs : Str) (c : Caps)
    (k : Str → Caps → Option α) :
    Regex.loop (Regex.run (.cls p)) (n + 1) (x :: xs) c k =
      if p x then (Regex.loop (Regex.run (.cls p)) n xs c k).orElse (fun _ => k (x :: xs) c)
      else k (x :: xs) c := by
  by_cases h : p x <;> simp [Regex.loop, Regex.run, h]

/-- The greedy loop over a class, when what follows never fails, stops after
the longest run of the class. -/
theorem loop_cls_greedy {α : Type} (p : Char → Bool) (k : Str → Caps → Option α) (c : Caps)
    (hk : ∀ r, k r c ≠ none) :
    ∀ (s : Str) (n : Nat), s.length ≤ n →
      Regex.loop (Regex.run (.cls p)) n s c k = k (s.dropWhile p) c := by
  intro s
  induction s with
  | nil => intro n _; simp [loop_cls_nil]
  | cons x xs ih =>
    intro n hn
    obtain ⟨m, rfl⟩ : ∃ m, n = m + 1 := ⟨n - 1, by simp at hn; omega⟩
    rw [loop_cls_cons]
    by_cases h : p x
    · have hm : xs.length ≤ m := by simp at hn; omega
      simp only [h, if_true, List.dropWhile_cons_of_pos, ih m hm]
      cases hv : k (List.dropWhile p xs) c with
      | none => exact absurd hv (hk _)
      | some v => rfl
    · simp [h, List.dropWhile_cons_of_neg]

/-- The greedy loop over a class, when what follows rejects every text that
starts inside the class, stops after the longest run of the class. -/
theorem loop_cls_exact {α : Type} (p : Char → Bool) (k : Str → Caps → Option α) (c : Caps)
    (hk : ∀ x xs, p x = true → k (x :: xs) c = none) :
    ∀ (s : Str) (n : Nat), s.length ≤ n →
      Regex.loop (Regex.run (.cls p)) n s c k = k (s.dropWhile p) c := by
  intro s
  induction s with
  | nil => intro n _; simp [loop_cls_nil]
  | cons x xs ih =>
    intro n hn
    obtain ⟨m, rfl⟩ : ∃ m, n = m + 1 := ⟨n - 1, by simp at hn; omega⟩
    rw [loop_cls_cons]
    by_cases h : p x
    · have hm : xs.length ≤ m := by simp at hn; omega
      simp only [h, if_true, List.dropWhile_cons_of_pos, ih m hm, hk x xs h]
      cases k (List.dropWhile p xs) c <;> rfl
    · simp [h, List.dropWhile_cons_of_neg]

/-- Whatever the greedy loop over a class returns comes from what follows,
run after some prefix inside the class. -/
theorem loop_cls_sound {α : Type} (p : Char → Bool) (k : Str → Caps → Option α) (c : Caps)
    (v : α) :
    ∀ (s : Str) (n : Nat), s.length ≤ n →
      Regex.loop (Regex.run (.cls p)) n s c k = some v →
      ∃ pre post, s = pre ++ post ∧ (∀ x ∈ pre, p x = true) ∧ k post c = some v := by
  intro s
  induction s with
  | nil =>
    intro n _ h
    rw [loop_cls_nil] at h
    exact ⟨[], [], rfl, by simp, h⟩
  | cons x xs ih =>
    intro n hn h
    obtain ⟨m, rfl⟩ : ∃ m, n = m + 1 := ⟨n - 1, by simp at hn; omega⟩
    rw [loop_cls_cons] at h
    by_cases hp : p x
    · have hm : xs.length ≤ m := by simp at hn; omega
      simp only [hp, if_true] at h
      cases hl : Regex.loop (Regex.run (.cls p)) m xs c k with
      | none =>
        rw [hl] at h
        exact ⟨[], x :: xs, rfl, by simp, h⟩
      | some u =>
        rw [hl] at h
        have huv : u = v := by simpa using h
        subst huv
        obtain ⟨pre, post, hs, hall, hk⟩ := ih m hm hl
        refine ⟨x :: pre, post, by simp [hs], ?_, hk⟩
        intro y hy
        rcases List.mem_cons.1 hy with rfl | hy
        · exact hp
        · exact hall y hy
    · simp only [hp] at h
      exact ⟨[], x :: xs, rfl, by simp, h⟩

/-- When the greedy loop over a class fails, what follows fails on the
whole text. -/
theorem loop_cls_none {α : Type} (p : Char → Bool) (k : Str → Caps → Option α) (c : Caps)
    (s : Str) (n : Nat) (h : Regex.loop (Regex.run (.cls p)) n s c k = none) :
    k s c = none := by
  cases s with
  | nil => rwa [loop_cls_nil] at h
  | cons x xs =>
    cases n with
    | zero => simpa [Regex.loop] using h
    | succ m =>
      rw [loop_cls_cons] at h
      by_cases hp : p x
      · simp only [hp, if_true] at h
        cases hl : Regex.loop (Regex.run (.cls p)) m xs c k with
        | none => rw [hl] at h; simpa using h
        | some u => rw [hl] at h; simp at h
      · simpa [hp] using h

theorem isWordChar_hyphen (x : Char) (h : isWordChar x = true) : x ≠ '-' := by
  rintro rfl
  revert h
  decide

theorem take_length_sub (a b : Str) : (a ++ b).take ((a ++ b).length - b.length) = a := by
  simp

theorem run_cat {α : Type} (a b : Regex) (s : Str) (c : Caps) (k : Str → Caps → Option α) :
    (Regex.cat a b).run s c k = a.run s c (fun s1 c1 => b.run s1 c1 k) := rfl

theorem run_star {α : Type} (a : Regex) (s : Str) (c : Caps) (k : Str → Caps → Option α) :
    (Regex.star a).run s c k = Regex.loop a.run s.length s c k := rfl

theorem run_plus {α : Type} (a : Regex) (s : Str) (c : Caps) (k : Str → Caps → Option α) :
    (Regex.plus a).run s c k =
      a.run s c (fun s1 c1 => Regex.loop a.run s1.length s1 c1 k) := rfl

theorem run_quest {α : Type} (a : Regex) (s : Str) (c : Caps) (k : Str → Caps → Option α) :
    (Regex.quest a).run s c k = (a.run s c k).orElse (fun _ => k s c) := rfl

theorem run_group {α : Type} (n : Nat) (a : Regex) (s : Str) (c : Caps)
    (k : Str → Caps → Option α) :
    (Regex.group n a).run s c k =
      a.run s c (fun s1 c1 => k s1 ((n, s.take (s.length - s1.length)) :: c1)) := rfl

theorem run_cls_nil {α : Type} (p : Char → Bool) (c : Caps) (k : Str → Caps → Option α) :
    (Regex.cls p).run [] c k = none := rfl

theorem run_cls_cons {α : Type} (p : Char → Bool) (x : Char) (xs : Str) (c : Caps)
    (k : Str → Caps → Option α) :
    (Regex.cls p).run (x :: xs) c k = if p x then k xs c else none := rfl

theorem keyCore_run {α : Type} (k : Str → Caps → Option α) (hk : ∀ r c, k r c ≠ none)
    (s : Str) (c : Caps) :
    keyCore.run s c k =
      match keyAt s with
      | none => none
      | some (key, rest) => k (rest.dropWhile (fun c => c ≠ '\n')) ((1, key) :: c) := by
  cases s with
  | nil => simp [keyCore, run_cat, run_group, run_plus, run_cls_nil, keyAt]
  | cons x xs =>
    by_cases hx : isWordChar x
    · simp only [keyCore, run_cat, run_group, run_plus, run_cls_cons, run_star, hx, if_true, keyAt]
      rw [loop_cls_exact _ _ _ _ _ _ (le_refl _)]
      · have hsplit : xs = xs.takeWhile isWordChar ++ xs.dropWhile isWordChar :=
          (List.takeWhile_append_dropWhile isWordChar xs).symm
        generalize xs.dropWhile isWordChar = t at hsplit ⊢
        rcases t with _ | ⟨h, _ | ⟨y, ys⟩⟩
        · rw [run_cls_nil]
        · rw [run_cls_cons]
          by_cases hh : h = '-' <;> simp [hh, run_cls_nil]
        · rw [run_cls_cons]
          by_cases hh : h = '-'
          · subst hh
            rw [run_cls_cons]
            by_cases hy : isDigit y
            · have hcap : List.take ((x :: xs).length - (ys.dropWhile isDigit).length) (x :: xs) =
                  x :: xs.takeWhile isWordChar ++ '-' :: y :: ys.takeWhile isDigit := by
                have h2 : x :: xs = (x :: xs.takeWhile isWordChar ++ '-' :: y :: ys.takeWhile isDigit)
                    ++ ys.dropWhile isDigit := by
                  conv_lhs => rw [hsplit]
                  simp [List.takeWhile_append_dropWhile]
                conv_lhs => rw [h2]
                exact take_length_sub _ _
              rw [loop_cls_greedy _ _ _ _ _ _ (le_refl _)]
              · rw [loop_cls_greedy _ _ _ (fun r => hk r _) _ _ (le_refl _)]
                simp only [List.length_cons] at hcap
                simp [hy, hcap]
              · intro r
                rw [loop_cls_greedy _ _ _ (fun r => hk r _) _ _ (le_refl _)]
                exact hk _ _
            · simp [hy]
          · simp [hh]
      · intro y ys hy
        rw [run_cls_cons]
        simp [isWordChar_hyphen y hy]
    · simp [keyCore, run_cat, run_group, run_plus, run_cls_cons, keyAt, hx]
theorem branchMatcher_run {α : Type} (s : Str) (c : Caps) (k : Str → Caps → Option α) :
    branchMatcher.run s c k =
      Regex.loop (Regex.run (.cls isSpaceRe)) s.length s c (fun s1 c1 =>
        ((Regex.cls (fun c => c = '*')).run s1 c1 (fun s2 c2 =>
          Regex.loop (Regex.run (.cls isSpaceRe)) s2.length s2 c2 (fun s3 c3 =>
            keyCore.run s3 c3 k))).orElse (fun _ =>
          Regex.loop (Regex.run (.cls isSpaceRe)) s1.length s1 c1 (fun s3 c3 =>
            keyCore.run s3 c3 k))) := rfl

theorem isSpaceRe_not_word (x : Char) (h : isSpaceRe x = true) : isWordChar x = false := by
  simp only [isSpaceRe, Bool.or_eq_true, decide_eq_true_eq] at h
  rcases h with (((rfl | rfl) | h) | rfl) | rfl
  · decide
  · decide
  · have hx : x ≠ '_' := by rintro rfl; simp at h
    simp [isWordChar, h, hx]
  · decide
  · decide

/-- A match of branchMatcher is a match of its core after a prefix of
characters that are not word characters. -/
theorem branchMatcher_sound {α : Type} (k : Str → Caps → Option α) (s : Str) (c : Caps) (v : α)
    (h : branchMatcher.run s c k = some v) :
    ∃ pfx t, s = pfx ++ t ∧ (∀ x ∈ pfx, isWordChar x = false) ∧ keyCore.run t c k = some v := by
  rw [branchMatcher_run] at h
  obtain ⟨p1, t1, hs1, hp1, h1⟩ := loop_cls_sound _ _ _ _ _ _ (le_refl _) h
  have hp1w : ∀ x ∈ p1, isWordChar x = false := fun x hx => isSpaceRe_not_word x (hp1 x hx)
  have tail : ∀ (pfx t : Str), (∀ x ∈ pfx, isWordChar x = false) → s = pfx ++ t →
      Regex.loop (Regex.run (.cls isSpaceRe)) t.length t c (fun s3 c3 => keyCore.run s3 c3 k)
        = some v →
      ∃ pfx t, s = pfx ++ t ∧ (∀ x ∈ pfx, isWordChar x = false) ∧
        keyCore.run t c k = some v := by
    intro pfx t hpfx hs ht
    obtain ⟨p2, t2, hs2, hp2, h2⟩ := loop_cls_sound _ _ _ _ _ _ (le_refl _) ht
    refine ⟨pfx ++ p2, t2, by simp [hs, hs2], ?_, h2⟩
    intro x hx
    rcases List.mem_append.1 hx with hx | hx
    · exact hpfx x hx
    · exact isSpaceRe_not_word x (hp2 x hx)
  cases ha : (Regex.cls (fun c => c = '*')).run t1 c (fun s2 c2 =>
      Regex.loop (Regex.run (.cls isSpaceRe)) s2.length s2 c2 (fun s3 c3 =>
        keyCore.run s3 c3 k)) with
  | none =>
    rw [ha] at h1
    exact tail p1 t1 hp1w hs1 (by simpa using h1)
  | some u =>
    rw [ha] at h1
    have huv : u = v := by simpa using h1
    subst huv
    cases t1 with
    | nil => simp [run_cls_nil] at ha
    | cons y ys =>
      rw [run_cls_cons] at ha
      by_cases hy : y = '*'
      · subst hy
        simp only [decide_True, if_true] at ha
        refine tail (p1 ++ ['*']) ys ?_ (by simp [hs1]) ha
        intro x hx
        rcases List.mem_append.1 hx with hx | hx
        · exact hp1w x hx
        · simp at hx; subst hx; decide
      · simp [hy] at ha

/-- When branchMatcher fails at a position, so does its core. -/
theorem branchMatcher_none {α : Type} (k : Str → Caps → Option α) (s : Str) (c : Caps)
    (h : branchMatcher.run s c k = none) : keyCore.run s c k = none := by
  rw [branchMatcher_run] at h
  have h1 := loop_cls_none _ _ _ _ _ h
  cases ha : (Regex.cls (fun c => c = '*')).run s c (fun s2 c2 =>
      Regex.loop (Regex.run (.cls isSpaceRe)) s2.length s2 c2 (fun s3 c3 =>
        keyCore.run s3 c3 k)) with
  | none =>
    rw [ha] at h1
    exact loop_cls_none _ _ _ _ _ (by simpa using h1)
  | some u => rw [ha] at h1; simp at h1


theorem keyAt_spec (s key rest : Str) (h : keyAt s = some (key, rest)) :
    ∃ w d, KeyShape w d ∧ key = w ++ '-' :: d ∧ s = key ++ rest ∧
      ∀ c, rest.head? = some c → isDigit c = false := by
  cases s with
  | nil => simp [keyAt] at h
  | cons x xs =>
    by_cases hx : isWordChar x
    · simp only [keyAt, hx, if_true] at h
      have hsplit := List.takeWhile_append_dropWhile isWordChar xs
      rcases ht : xs.dropWhile isWordChar with _ | ⟨hh, _ | ⟨y, ys⟩⟩
      · rw [ht] at h; simp at h
      · rw [ht] at h; simp at h
      · rw [ht] at h hsplit
        by_cases hc : hh = '-' ∧ isDigit y = true
        · simp only [hc, and_self, if_true, Option.some.injEq, Prod.mk.injEq] at h
          obtain ⟨hkey, hrest⟩ := h
          obtain ⟨hh1, hy⟩ := hc
          subst hh1
          refine ⟨x :: xs.takeWhile isWordChar, y :: ys.takeWhile isDigit, ⟨by simp, ?_, by simp, ?_⟩,
            hkey.symm, ?_, ?_⟩
          · intro c hc
            rcases List.mem_cons.1 hc with rfl | hc
            · exact hx
            · exact List.mem_takeWhile_imp hc
          · intro c hc
            rcases List.mem_cons.1 hc with rfl | hc
            · exact hy
            · exact List.mem_takeWhile_imp hc
          · rw [← hkey, ← hrest]
            conv_lhs => rw [← hsplit]
            simp [List.takeWhile_append_dropWhile]
          · intro c hc
            rw [← hrest] at hc
            have := List.head?_dropWhile_not isDigit ys
            rw [hc] at this
            simpa using this
        · simp [hc] at h
    · simp [keyAt, hx] at h

theorem keyAt_complete (w d post : Str) (h : KeyShape w d) :
    keyAt (w ++ '-' :: d ++ post) ≠ none := by
  obtain ⟨hw, hwall, hd, hdall⟩ := h
  cases w with
  | nil => exact absurd rfl hw
  | cons x w1 =>
    cases d with
    | nil => exact absurd rfl hd
    | cons y d1 =>
      have hx : isWordChar x = true := hwall x (by simp)
      have hy : isDigit y = true := hdall y (by simp)
      have hdrop : List.dropWhile isWordChar (w1 ++ '-' :: y :: (d1 ++ post)) =
          '-' :: y :: (d1 ++ post) := by
        rw [List.dropWhile_append_of_pos (fun a ha => hwall a (by simp [ha]))]
        rw [List.dropWhile_cons_of_neg (by decide)]
      simp only [List.cons_append, keyAt, hx, if_true, List.append_assoc]
      rw [hdrop]
      simp [hy]

theorem search_none (re : Regex) :
    ∀ s : Str, re.search s = none → ∀ pre t, s = pre ++ t → re.matchAt t = none := by
  intro s
  induction s with
  | nil =>
    intro h pre t hs
    have : t = [] := by
      have := congrArg List.length hs
      simp at this
      exact List.length_eq_zero.1 (by omega)
    subst this
    simpa [Regex.search] using h
  | cons x xs ih =>
    intro h pre t hs
    simp only [Regex.search] at h
    cases hm : re.matchAt (x :: xs) with
    | some r => rw [hm] at h; simp at h
    | none =>
      rw [hm] at h
      cases pre with
      | nil => simp at hs; subst hs; exact hm
      | cons y ys =>
        simp at hs
        exact ih h ys t hs.2

theorem search_some (re : Regex) (r : Str × Caps) :
    ∀ s : Str, re.search s = some r →
      ∃ pre t, s = pre ++ t ∧ re.matchAt t = some r ∧
        ∀ pre1 t1, s = pre1 ++ t1 → pre1.length < pre.length → re.matchAt t1 = none := by
  intro s
  induction s with
  | nil =>
    intro h
    exact ⟨[], [], rfl, by simpa [Regex.search] using h, by simp⟩
  | cons x xs ih =>
    intro h
    simp only [Regex.search] at h
    cases hm : re.matchAt (x :: xs) with
    | some r1 =>
      rw [hm] at h
      simp at h
      subst h
      exact ⟨[], x :: xs, rfl, hm, by simp⟩
    | none =>
      rw [hm] at h
      obtain ⟨pre, t, hs, ht, hmin⟩ := ih h
      refine ⟨x :: pre, t, by simp [hs], ht, ?_⟩
      intro pre1 t1 hs1 hlt
      cases pre1 with
      | nil => simp at hs1; subst hs1; exact hm
      | cons y ys =>
        simp at hs1
        exact hmin ys t1 hs1.2 (by simpa using hlt)


theorem mem_of_two_splits (a b u p v : Str) (x : Char) (h : a ++ b ++ u = p ++ x :: v)
    (h1 : a.length ≤ p.length) (h2 : p.length < (a ++ b).length) : x ∈ b := by
  have e1 : (a ++ b ++ u)[p.length]? = some x := by
    rw [h, List.getElem?_append_right (le_refl _)]
    simp
  rw [List.getElem?_append_left h2, List.getElem?_append_right h1] at e1
  exact List.getElem?_mem e1

theorem FindStringSubmatch_one (re : Regex) (s : Str) :
    re.FindStringSubmatch 1 s =
      match re.search s with
      | none => []
      | some (whole, caps) => [whole, (caps.lookup 1).getD []] := by
  unfold Regex.FindStringSubmatch
  cases re.search s with
  | none => rfl
  | some r => rfl


/-! ## lemmas: the paths of getBranchDescription -/

theorem gbd_nomatch (env : Env) (nc : Bool) (line : Str) (js : jiraSettings) (inc : Bool)
    (h : capturedKey (TrimSpace line) = none) :
    getBranchDescription env nc line js inc = ([], TrimSpace line) := by
  unfold capturedKey at h
  unfold getBranchDescription
  by_cases hl : (branchMatcher.FindStringSubmatch 1 (TrimSpace line)).length < 2
  · simp [hl]
  · simp [hl] at h

theorem capturedKey_some (line key : Str) (h : capturedKey line = some key) :
    ¬ (branchMatcher.FindStringSubmatch 1 line).length < 2 ∧
      (branchMatcher.FindStringSubmatch 1 line).getD 1 [] = key := by
  unfold capturedKey at h
  by_cases hl : (branchMatcher.FindStringSubmatch 1 line).length < 2
  · simp [hl] at h
  · simp only [hl, if_false, Option.some.injEq] at h
    exact ⟨hl, h⟩

theorem gbd_request_err (env : Env) (nc : Bool) (line : Str) (js : jiraSettings) (inc : Bool)
    (key : Str) (e : GoError) (hk : capturedKey (TrimSpace line) = some key)
    (h : env.urlError (issueUrl js key) = some e) :
    getBranchDescription env nc line js inc =
      ([.newRequest "GET".toList (issueUrl js key), .stdout (.Println [.err e])],
        TrimSpace line) := by
  obtain ⟨hl, hkey⟩ := capturedKey_some _ _ hk
  unfold getBranchDescription
  simp only [hl, if_false, hkey, NewRequest, h]

theorem gbd_transport_err (env : Env) (nc : Bool) (line : Str) (js : jiraSettings) (inc : Bool)
    (key : Str) (e : GoError) (hk : capturedKey (TrimSpace line) = some key)
    (hu : env.urlError (issueUrl js key) = none)
    (h : env.Do (lookupRequest js key) = .error e) :
    getBranchDescription env nc line js inc =
      ([.newRequest "GET".toList (issueUrl js key), .send (lookupRequest js key),
        .stdout (.Println [.err e])], TrimSpace line) := by
  obtain ⟨hl, hkey⟩ := capturedKey_some _ _ hk
  unfold lookupRequest at h
  unfold getBranchDescription
  simp only [hl, if_false, hkey, NewRequest, hu, h, lookupRequest]

theorem gbd_status (env : Env) (nc : Bool) (line : Str) (js : jiraSettings) (inc : Bool)
    (key : Str) (resp : Response) (hk : capturedKey (TrimSpace line) = some key)
    (hu : env.urlError (issueUrl js key) = none)
    (h : env.Do (lookupRequest js key) = .ok resp) (hs : resp.StatusCode ≠ 200) :
    getBranchDescription env nc line js inc =
      ([.newRequest "GET".toList (issueUrl js key), .send (lookupRequest js key)],
        TrimSpace line) := by
  obtain ⟨hl, hkey⟩ := capturedKey_some _ _ hk
  unfold lookupRequest at h
  unfold getBranchDescription
  simp only [hl, if_false, hkey, NewRequest, hu, h, lookupRequest, hs, ne_eq, not_false_eq_true,
    if_true]

theorem gbd_read_err (env : Env) (nc : Bool) (line : Str) (js : jiraSettings) (inc : Bool)
    (key : Str) (resp : Response) (e : GoError) (hk : capturedKey (TrimSpace line) = some key)
    (hu : env.urlError (issueUrl js key) = none)
    (h : env.Do (lookupRequest js key) = .ok resp) (hs : resp.StatusCode = 200)
    (hb : resp.Body = .error e) :
    getBranchDescription env nc line js inc =
      ([.newRequest "GET".toList (issueUrl js key), .send (lookupRequest js key),
        .stdout (.Println [.err e])], TrimSpace line) := by
  obtain ⟨hl, hkey⟩ := capturedKey_some _ _ hk
  unfold lookupRequest at h
  unfold getBranchDescription
  simp only [hl, if_false, hkey, NewRequest, hu, h, lookupRequest, hs, ne_eq, not_true_eq_false,
    hb]

theorem gbd_decode_err (env : Env) (nc : Bool) (line : Str) (js : jiraSettings) (inc : Bool)
    (key : Str) (resp : Response) (body : JsonText) (e : GoError)
    (hk : capturedKey (TrimSpace line) = some key)
    (hu : env.urlError (issueUrl js key) = none)
    (h : env.Do (lookupRequest js key) = .ok resp) (hs : resp.StatusCode = 200)
    (hb : resp.Body = .ok body) (hd : (Unmarshal body {}).2 = some e) :
    getBranchDescription env nc line js inc =
      ([.newRequest "GET".toList (issueUrl js key), .send (lookupRequest js key),
        .stdout (.Println [.err e])], TrimSpace line) := by
  obtain ⟨hl, hkey⟩ := capturedKey_some _ _ hk
  unfold lookupRequest at h
  unfold getBranchDescription
  simp only [hl, if_false, hkey, NewRequest, hu, h, lookupRequest, hs, ne_eq, not_true_eq_false,
    hb]
  cases hU : Unmarshal body {} with
  | mk t oe =>
    rw [hU] at hd
    simp only at hd
    subst hd
    rfl

theorem gbd_ok (env : Env) (nc : Bool) (line : Str) (js : jiraSettings) (inc : Bool)
    (key : Str) (resp : Response) (body : JsonText)
    (hk : capturedKey (TrimSpace line) = some key)
    (hu : env.urlError (issueUrl js key) = none)
    (h : env.Do (lookupRequest js key) = .ok resp) (hs : resp.StatusCode = 200)
    (hb : resp.Body = .ok body) (hd : (Unmarshal body {}).2 = none) :
    getBranchDescription env nc line js inc =
      ([.newRequest "GET".toList (issueUrl js key), .send (lookupRequest js key)],
        TicketInfo.Description nc
          { (Unmarshal body {}).1 with
            URL := js.rootUrl ++ "/browse/".toList ++ (Unmarshal body {}).1.Key } inc) := by
  obtain ⟨hl, hkey⟩ := capturedKey_some _ _ hk
  unfold lookupRequest at h
  unfold getBranchDescription
  simp only [hl, if_false, hkey, NewRequest, hu, h, lookupRequest, hs, ne_eq, not_true_eq_false,
    hb]
  cases hU : Unmarshal body {} with
  | mk t oe =>
    rw [hU] at hd
    simp only at hd
    subst hd
    rfl


/-! ## lemmas: formatting and decoding -/

theorem doPrintf_of_no_percent :
    ∀ (s : Str) (n : Nat), '%' ∉ s → s.length ≤ n → doPrintf n s = s := by
  intro s
  induction s with
  | nil => intro n _ _; cases n <;> rfl
  | cons x xs ih =>
    intro n hp hn
    obtain ⟨m, rfl⟩ : ∃ m, n = m + 1 := ⟨n - 1, by simp at hn; omega⟩
    have hx : x ≠ '%' := fun h => hp (by simp [h])
    have hxs : '%' ∉ xs := fun h => hp (by simp [h])
    simp only [doPrintf, hx, if_false]
    rw [ih m hxs (by simp at hn; omega)]

theorem Sprintf0_of_no_percent (s : Str) (h : '%' ∉ s) : Sprintf0 s = s :=
  doPrintf_of_no_percent s s.length h (le_refl _)

theorem Description_plain (ti : TicketInfo) (hs : '%' ∉ stateText ti) (hu : '%' ∉ ti.URL) :
    TicketInfo.Description true ti true =
      TrimSpace (ti.Key ++ " (".toList ++ stateText ti ++ ") ".toList ++ ti.Fields.Summary ++
        " ".toList ++ ti.URL) := by
  unfold TicketInfo.Description
  by_cases hd : ti.Fields.Resolutiondate = []
  · have hs1 : '%' ∉ ti.Fields.Status.Name := by simpa [stateText, hd] using hs
    simp [hd, stateText, red, cyan, SprintfFunc, Sprintf0_of_no_percent _ hs1,
      Sprintf0_of_no_percent _ hu]
  · have hpos : 0 < ti.Fields.Resolutiondate.length := List.length_pos.2 hd
    have hs1 : '%' ∉ ti.Fields.Status.Name ++ ": ".toList ++ ti.Fields.Resolution.Name := by
      simpa [stateText, hd] using hs
    simp only [hpos, if_true, stateText, hd, if_false, green, cyan, SprintfFunc,
      Sprintf0_of_no_percent _ hs1, Sprintf0_of_no_percent _ hu, Bool.not_true]
    simp [Sprintf0_of_no_percent _ hu]


theorem storeStruct_no_member {α : Type} (field : Str) (names : List Str)
    (member : Str → α → Json → α × List GoError) (cur : α) (kvs : List (Str × Json))
    (h : ∀ kv ∈ kvs, fieldFor names kv.1 = none) :
    storeStruct field names member cur (.obj kvs) = (cur, []) := by
  have key : ∀ (acc : α × List GoError),
      kvs.foldl (fun acc kv =>
        match fieldFor names kv.1 with
        | none => acc
        | some n =>
          match member n acc.1 kv.2 with
          | (v, errs) => (v, acc.2 ++ errs)) acc = acc := by
    induction kvs with
    | nil => intro acc; rfl
    | cons kv rest ih =>
      intro acc
      rw [List.foldl_cons, h kv (by simp)]
      exact ih (fun kv1 hkv1 => h kv1 (by simp [hkv1])) acc
  exact key (cur, [])

theorem Unmarshal_no_member (kvs : List (Str × Json))
    (h : ∀ kv ∈ kvs, fieldFor ["URL".toList, "fields".toList, "key".toList] kv.1 = none) :
    Unmarshal (.valid (.obj kvs)) {} = ({}, none) := by
  simp only [Unmarshal, storeTicketInfo, storeStruct_no_member _ _ _ _ _ h, List.head?_nil]


/-! ## lemmas: the invariant of main -/

theorem readLines_of_ReadString (s : Str) :
    (∀ line rest, ReadString s = (line, some rest) → readLines s = line :: readLines rest) ∧
    (∀ line, ReadString s = (line, none) → readLines s = [line]) := by
  induction s with
  | nil => simp [ReadString, readLines]
  | cons c cs ih =>
    by_cases hc : c = '\n'
    · subst hc
      simp [ReadString, readLines]
    · constructor
      · intro line rest h
        simp only [ReadString, hc, if_false] at h
        cases hr : ReadString cs with
        | mk l r =>
          rw [hr] at h
          simp only [Prod.mk.injEq] at h
          obtain ⟨h1, h2⟩ := h
          subst h1 h2
          have := ih.1 l rest hr
          simp [readLines, hc, this]
      · intro line h
        simp only [ReadString, hc, if_false] at h
        cases hr : ReadString cs with
        | mk l r =>
          rw [hr] at h
          simp only [Prod.mk.injEq] at h
          obtain ⟨h1, h2⟩ := h
          subst h1 h2
          have := ih.2 l hr
          simp [readLines, hc, this]

theorem split_of_getElem? {α : Type} (l : List α) (i : Nat) (t : α) (h : l[i]? = some t) :
    ∃ l1 l2, l = l1 ++ t :: l2 ∧ ∀ t1, l.set i t1 = l1 ++ t1 :: l2 := by
  induction l generalizing i with
  | nil => simp at h
  | cons x xs ih =>
    cases i with
    | zero =>
      simp at h
      subst h
      exact ⟨[], xs, rfl, fun _ => rfl⟩
    | succ j =>
      simp at h
      obtain ⟨l1, l2, hl, hset⟩ := ih j h
      exact ⟨x :: l1, l2, by simp [hl], fun t1 => by simp [hset t1]⟩

theorem Inv_init (w : World) (stdin : Str) : Inv w stdin (w.init stdin) := by
  refine ⟨by simp [World.init], by simp [World.init], Or.inr (by simp [World.init]), ?_,
    by simp [World.init], by simp [World.init]⟩
  intro _
  simp [World.init, List.enum]

theorem Inv_launch (w : World) (stdin : Str) (s : State) (line : Str) (rest : Str) (pc : Pc)
    (h : Inv w stdin s) (hpc : s.pc = .reading)
    (hread : readLines s.input = line :: (if pc = .reading then readLines rest else []))
    (hpc2 : pc = .reading ∨ (pc = .waiting ∧ rest = [])) :
    Inv w stdin { s.launch w line with input := rest, pc := pc } := by
  have hreading := h.reading hpc
  rw [hread] at hreading
  refine ⟨?_, ?_, ?_, ?_, ?_, ?_⟩
  · simp [State.launch, h.wg_eq]
  · intro t ht
    simp only [State.launch, List.mem_append, List.mem_singleton] at ht
    rcases ht with ht | rfl
    · exact h.writes t ht
    · simp
  · rcases h.out with ho | ho
    · rw [hpc] at ho; exact absurd ho (by decide)
    · right
      simp [State.launch, ho]
  · intro hp
    simp only at hp
    simp only [State.launch, List.map_append, List.map_cons, List.map_nil, List.length_append,
      List.length_singleton]
    rw [← hreading, if_pos hp]
    simp [List.enumFrom_cons]
  · intro hp
    simp only at hp
    rcases hpc2 with rfl | ⟨rfl, hrest⟩
    · rcases hp with hp | hp <;> exact absurd hp (by decide)
    · refine ⟨hrest, ?_⟩
      simp only [State.launch, List.map_append, List.map_cons, List.map_nil]
      rw [← hreading]
      simp [List.enumFrom_cons]
  · intro hp
    simp only at hp
    rcases hpc2 with rfl | ⟨rfl, -⟩ <;> exact absurd hp (by decide)


theorem Inv_step (w : World) (stdin : Str) (s s1 : State) (l : Label) (h : Inv w stdin s)
    (hstep : main.step w s l = some s1) : Inv w stdin s1 := by
  cases l with
  | main =>
    simp only [main.step] at hstep
    cases hpc : s.pc with
    | reading =>
      rw [hpc] at hstep
      simp only at hstep
      cases hr : ReadString s.input with
      | mk line orest =>
        rw [hr] at hstep
        cases orest with
        | some rest =>
          simp only [Option.some.injEq] at hstep
          subst hstep
          have := Inv_launch w stdin s line rest .reading h hpc
            (by simp [(readLines_of_ReadString s.input).1 line rest hr]) (Or.inl rfl)
          have e : ({ s.launch w line with input := rest } : State) =
              { s.launch w line with input := rest, pc := .reading } := by
            simp [State.launch, hpc]
          rw [e]
          exact this
        | none =>
          simp only at hstep
          cases he : w.stdinErr with
          | some err =>
            rw [he] at hstep
            simp only [Option.some.injEq] at hstep
            subst hstep
            exact ⟨h.wg_eq, h.writes, Or.inl rfl, by simp, by simp, by simp⟩
          | none =>
            rw [he] at hstep
            simp only [Option.some.injEq] at hstep
            subst hstep
            exact Inv_launch w stdin s line [] .waiting h hpc
              (by simp [(readLines_of_ReadString s.input).2 line hr]) (Or.inr ⟨rfl, rfl⟩)
    | waiting =>
      rw [hpc] at hstep
      simp only at hstep
      by_cases hw : s.wg = 0
      · rw [if_pos hw] at hstep
        simp only [Option.some.injEq] at hstep
        subst hstep
        refine ⟨h.wg_eq, h.writes, ?_, by simp, fun _ => h.finished (Or.inl hpc), fun _ => hw⟩
        rcases h.out with ho | ho
        · rw [hpc] at ho; exact absurd ho (by decide)
        · exact Or.inr ho
      · simp [hw] at hstep
    | returned => rw [hpc] at hstep; simp at hstep
    | exited => rw [hpc] at hstep; simp at hstep
  | task i =>
    simp only [main.step] at hstep
    by_cases hend : s.pc = .returned ∨ s.pc = .exited
    · simp [hend] at hstep
    · simp only [hend, if_false] at hstep
      cases ht : s.tasks[i]? with
      | none => rw [ht] at hstep; simp at hstep
      | some t =>
        rw [ht] at hstep
        simp only at hstep
        obtain ⟨l1, l2, hl, hset⟩ := split_of_getElem? _ _ _ ht
        have hout : (s.stdout : Multiset Write) =
            ((s.tasks.flatMap (fun t => t.written) : List Write) : Multiset Write) := by
          rcases h.out with ho | ho
          · exact absurd (Or.inr ho) hend
          · exact ho
        have hpcs : ¬ s.pc = .returned := fun hp => hend (Or.inl hp)
        have hpce : ¬ s.pc = .exited := fun hp => hend (Or.inr hp)
        by_cases hdone : t.done = true
        · simp [hdone] at hstep
        · rw [if_neg hdone] at hstep
          have htw := h.writes t (by rw [hl]; simp)
          cases hp : t.pending with
          | cons x rest =>
            rw [hp] at hstep
            simp only [Option.some.injEq] at hstep
            subst hstep
            refine ⟨?_, ?_, Or.inr ?_, ?_, ?_, ?_⟩
            · have := h.wg_eq
              rw [hl] at this
              have hd0 : t.done = false := by simpa using hdone
              simp only [hset, this, List.filter_append, List.filter_cons, hd0]
              simp
            · intro t1 ht1
              simp only [hset, List.mem_append, List.mem_cons] at ht1
              rcases ht1 with ht1 | rfl | ht1
              · exact h.writes t1 (by rw [hl]; simp [ht1])
              · refine ⟨?_, fun hd => absurd hd hdone⟩
                show (t.written ++ [x]) ++ rest = _
                rw [List.append_assoc, List.singleton_append, ← hp]
                exact htw.1
              · exact h.writes t1 (by rw [hl]; simp [ht1])
            · rw [hl] at hout
              simp only [hset, List.flatMap_append, List.flatMap_cons, ← Multiset.coe_add,
                ← Multiset.singleton_add, ← Multiset.cons_coe] at hout ⊢
              rw [hout]
              abel
            · intro hpc
              have := h.reading hpc
              rw [hl] at this
              simpa [hset] using this
            · intro hpc
              have := h.finished hpc
              rw [hl] at this
              simpa [hset] using this
            · intro hpc
              exact absurd hpc hpcs
          | nil =>
            rw [hp] at hstep
            simp only [Option.some.injEq] at hstep
            subst hstep
            refine ⟨?_, ?_, Or.inr ?_, ?_, ?_, ?_⟩
            · have := h.wg_eq
              rw [hl] at this
              have hd0 : t.done = false := by simpa using hdone
              simp only [hset, this, List.filter_append, List.filter_cons, hd0]
              simp
              omega
            · intro t1 ht1
              simp only [hset, List.mem_append, List.mem_cons] at ht1
              rcases ht1 with ht1 | rfl | ht1
              · exact h.writes t1 (by rw [hl]; simp [ht1])
              · refine ⟨?_, fun _ => rfl⟩
                show t.written ++ [] = _
                rw [← hp]
                exact htw.1
              · exact h.writes t1 (by rw [hl]; simp [ht1])
            · rw [hl] at hout
              simpa [hset] using hout
            · intro hpc
              have := h.reading hpc
              rw [hl] at this
              simpa [hset] using this
            · intro hpc
              have := h.finished hpc
              rw [hl] at this
              simpa [hset] using this
            · intro hpc
              exact absurd hpc hpcs

theorem Inv_run (w : World) (stdin : Str) :
    ∀ (sched : List Label) (s s1 : State), Inv w stdin s → main.run w s sched = some s1 →
      Inv w stdin s1 := by
  intro sched
  induction sched with
  | nil =>
    intro s s1 h hr
    simp only [main.run, Option.some.injEq] at hr
    exact hr ▸ h
  | cons l ls ih =>
    intro s s1 h hr
    simp only [main.run] at hr
    cases hs : main.step w s l with
    | none => rw [hs] at hr; simp at hr
    | some s2 =>
      rw [hs] at hr
      exact ih s2 s1 (Inv_step w stdin s s2 l h hs) hr


theorem readLines_no_newline (last : Str) (h : '\n' ∉ last) : readLines last = [last] := by
  induction last with
  | nil => rfl
  | cons c cs ih =>
    have hc : c ≠ '\n' := fun e => h (by simp [e])
    have hcs : '\n' ∉ cs := fun e => h (by simp [e])
    simp [readLines, hc, ih hcs]

theorem readLines_line (l rest : Str) (h : '\n' ∉ l) :
    readLines (l ++ '\n' :: rest) = (l ++ ['\n']) :: readLines rest := by
  induction l with
  | nil => simp [readLines]
  | cons c cs ih =>
    have hc : c ≠ '\n' := fun e => h (by simp [e])
    have hcs : '\n' ∉ cs := fun e => h (by simp [e])
    simp [readLines, hc, ih hcs]

theorem readLines_stream (ls : List Str) (last : Str) (hls : ∀ l ∈ ls, '\n' ∉ l)
    (hlast : '\n' ∉ last) :
    readLines (ls.flatMap (fun l => l ++ ['\n']) ++ last) =
      ls.map (fun l => l ++ ['\n']) ++ [last] := by
  induction ls with
  | nil => simpa using readLines_no_newline last hlast
  | cons l rest ih =>
    have := readLines_line l (rest.flatMap (fun l => l ++ ['\n']) ++ last) (hls l (by simp))
    simp only [List.flatMap_cons, List.append_assoc, List.singleton_append, List.map_cons,
      List.cons_append, List.nil_append] at this ⊢
    rw [this, ih (fun l1 h1 => hls l1 (by simp [h1]))]

theorem perm_flatMap_append_singleton {α β : Type} (f : α → List β) (g : α → β) (l : List α) :
    (l.flatMap (fun p => f p ++ [g p])).Perm (l.map g ++ l.flatMap f) := by
  induction l with
  | nil => simp
  | cons a l ih =>
    simp only [List.flatMap_cons, List.map_cons, List.cons_append]
    have h1 : (f a ++ [g a] ++ l.flatMap (fun p => f p ++ [g p])).Perm
        (g a :: (f a ++ l.flatMap (fun p => f p ++ [g p]))) := by
      rw [List.append_assoc]
      exact List.perm_middle
    refine h1.trans (List.Perm.cons _ ?_)
    refine ((List.Perm.append_left _ ih).trans ?_)
    rw [← List.append_assoc, ← List.append_assoc]
    exact List.Perm.append_right _ List.perm_append_comm

theorem returned_all_done (w : World) (stdin : Str) (s : State) (h : Inv w stdin s)
    (hret : s.pc = .returned) :
    ∀ t ∈ s.tasks, t.done = true ∧ t.pending = [] ∧ t.written = taskWrites w t.id t.line := by
  intro t ht
  have hwg := h.wg_eq
  rw [h.returned hret] at hwg
  have hnil : s.tasks.filter (fun t => !t.done) = [] :=
    List.length_eq_zero.1 (by exact_mod_cast hwg.symm)
  have hdone : t.done = true := by
    have := (List.filter_eq_nil_iff.1 hnil) t ht
    simpa using this
  obtain ⟨h1, h2⟩ := h.writes t ht
  have hp := h2 hdone
  rw [hp, List.append_nil] at h1
  exact ⟨hdone, hp, h1⟩

theorem returned_stdout (w : World) (stdin : Str) (s : State) (h : Inv w stdin s)
    (hret : s.pc = .returned) :
    s.stdout.Perm ((readLines stdin).enum.flatMap (fun p => taskWrites w p.1 p.2)) := by
  have hall := returned_all_done w stdin s h hret
  have hout : s.stdout.Perm (s.tasks.flatMap (fun t => t.written)) := by
    rcases h.out with ho | ho
    · rw [hret] at ho; exact absurd ho (by decide)
    · exact Multiset.coe_eq_coe.1 ho
  have e1 : s.tasks.flatMap (fun t => t.written) =
      s.tasks.flatMap (fun t => taskWrites w t.id t.line) := by
    have : ∀ (l : List Task), (∀ t ∈ l, t.written = taskWrites w t.id t.line) →
        l.flatMap (fun t => t.written) = l.flatMap (fun t => taskWrites w t.id t.line) := by
      intro l
      induction l with
      | nil => intro _; rfl
      | cons a l ih =>
        intro hl
        simp only [List.flatMap_cons]
        rw [hl a (by simp), ih (fun t ht => hl t (by simp [ht]))]
    exact this _ (fun t ht => (hall t ht).2.2)
  have e2 : s.tasks.flatMap (fun t => taskWrites w t.id t.line) =
      (s.tasks.map (fun t => (t.id, t.line))).flatMap (fun p => taskWrites w p.1 p.2) := by
    generalize s.tasks = l
    induction l with
    | nil => rfl
    | cons a l ih => simp only [List.flatMap_cons, List.map_cons, ih]
  rw [e1, e2, (h.finished (Or.inr hret)).2] at hout
  exact hout


/-! ## lemmas: main can return -/

theorem run_append (w : World) (a b : List Label) (s : State) :
    main.run w s (a ++ b) = (main.run w s a).bind (fun s1 => main.run w s1 b) := by
  induction a generalizing s with
  | nil => rfl
  | cons l ls ih =>
    simp only [List.cons_append, main.run]
    cases main.step w s l with
    | none => rfl
    | some s1 => exact ih s1

theorem run_cons (w : World) (s s1 : State) (l : Label) (ls : List Label)
    (h : main.step w s l = some s1) : main.run w s (l :: ls) = main.run w s1 ls := by
  simp [main.run, h]

theorem set_last {α : Type} (l : List α) (a b : α) : (l ++ [a]).set l.length b = l ++ [b] := by
  induction l with
  | nil => rfl
  | cons x xs ih => simp [ih]

/-- The last task launched, scheduled alone, makes all its writes and calls
Done. -/
theorem run_last_task (w : World) :
    ∀ (ws : List Write) (s : State) (l1 : List Task) (t : Task), s.tasks = l1 ++ [t] →
      t.done = false → t.pending = ws → s.pc ≠ .returned → s.pc ≠ .exited →
      ∃ s1, main.run w s (List.replicate (ws.length + 1) (.task l1.length)) = some s1 ∧
        s1.pc = s.pc ∧ s1.wg = s.wg - 1 ∧ s1.input = s.input := by
  intro ws
  induction ws with
  | nil =>
    intro s l1 t ht hd hp h1 h2
    have hget : s.tasks[l1.length]? = some t := by rw [ht]; simp
    refine ⟨{ s with wg := s.wg - 1, tasks := s.tasks.set l1.length { t with done := true } },
      ?_, rfl, rfl, rfl⟩
    simp [main.run, main.step, h1, h2, hget, hd, hp]
  | cons x rest ih =>
    intro s l1 t ht hd hp h1 h2
    have hget : s.tasks[l1.length]? = some t := by rw [ht]; simp
    have hstep : main.step w s (.task l1.length) =
        some { s with stdout := s.stdout ++ [x],
                      tasks := l1 ++ [{ t with pending := rest, written := t.written ++ [x] }] } := by
      simp [main.step, h1, h2, hget, hd, hp, ht, set_last]
    obtain ⟨s1, hr, e1, e2, e3⟩ := ih
      { s with stdout := s.stdout ++ [x],
               tasks := l1 ++ [{ t with pending := rest, written := t.written ++ [x] }] }
      l1 { t with pending := rest, written := t.written ++ [x] } rfl hd rfl h1 h2
    refine ⟨s1, ?_, e1, e2, e3⟩
    rw [List.length_cons, List.replicate_succ, run_cons _ _ _ _ _ hstep]
    exact hr

theorem ReadString_length (s line rest : Str) (h : ReadString s = (line, some rest)) :
    rest.length < s.length := by
  induction s generalizing line with
  | nil => simp [ReadString] at h
  | cons c cs ih =>
    by_cases hc : c = '\n'
    · simp only [ReadString, hc, if_true, Prod.mk.injEq, Option.some.injEq] at h
      rw [← h.2]; simp
    · simp only [ReadString, hc, if_false] at h
      cases hr : ReadString cs with
      | mk l r =>
        rw [hr] at h
        simp only [Prod.mk.injEq] at h
        have := ih l (by rw [hr, h.2])
        simp; omega

theorem run_to_return_at_eof (w : World) (heof : w.stdinErr = none) (s : State) (line : Str)
    (hpc : s.pc = .reading) (hwg : s.wg = 0) (hread : ReadString s.input = (line, none)) :
    ∃ sched s1, main.run w s sched = some s1 ∧ s1.pc = .returned := by
  have hstep : main.step w s .main =
      some { s.launch w line with input := [], pc := .waiting } := by
    simp [main.step, hpc, hread, heof]
  obtain ⟨s1, hr, e1, e2, -⟩ := run_last_task w (taskWrites w s.tasks.length line)
    { s.launch w line with input := [], pc := .waiting } s.tasks
    { id := s.tasks.length, line := line, pending := taskWrites w s.tasks.length line }
    rfl rfl rfl (by simp) (by simp)
  have hwait : main.step w s1 .main = some { s1 with pc := .returned } := by
    have : s1.wg = 0 := by rw [e2]; simp [State.launch, hwg]
    simp [main.step, e1, this]
  refine ⟨.main :: (List.replicate ((taskWrites w s.tasks.length line).length + 1)
      (.task s.tasks.length) ++ [.main]), { s1 with pc := .returned }, ?_, rfl⟩
  rw [run_cons _ _ _ _ _ hstep, run_append, hr]
  simp [main.run, hwait]

/-- When standard input ends with io.EOF, main can return: the schedule that
lets each task finish as soon as it is launched reaches the end. -/
theorem main_can_return (w : World) (heof : w.stdinErr = none) :
    ∀ (n : Nat) (s : State), s.input.length ≤ n → s.pc = .reading → s.wg = 0 →
      ∃ sched s1, main.run w s sched = some s1 ∧ s1.pc = .returned := by
  intro n
  induction n with
  | zero =>
    intro s hn hpc hwg
    cases hread : ReadString s.input with
    | mk line orest =>
      cases orest with
      | none => exact run_to_return_at_eof w heof s line hpc hwg hread
      | some rest =>
        have := ReadString_length _ _ _ hread
        omega
  | succ n ih =>
    intro s hn hpc hwg
    cases hread : ReadString s.input with
    | mk line orest =>
      cases orest with
      | none => exact run_to_return_at_eof w heof s line hpc hwg hread
      | some rest =>
        have hstep : main.step w s .main = some { s.launch w line with input := rest } := by
          simp [main.step, hpc, hread]
        obtain ⟨s1, hr, e1, e2, e3⟩ := run_last_task w (taskWrites w s.tasks.length line)
          { s.launch w line with input := rest } s.tasks
          { id := s.tasks.length, line := line, pending := taskWrites w s.tasks.length line }
          rfl rfl rfl (by simp [State.launch, hpc]) (by simp [State.launch, hpc])
        have hlen := ReadString_length _ _ _ hread
        obtain ⟨sched, s2, hr2, hp2⟩ := ih s1 (by rw [e3]; simp; omega)
          (by rw [e1]; simp [State.launch, hpc]) (by rw [e2]; simp [State.launch, hwg])
        refine ⟨.main :: (List.replicate ((taskWrites w s.tasks.length line).length + 1)
          (.task s.tasks.length) ++ sched), s2, ?_, hp2⟩
        rw [run_cons _ _ _ _ _ hstep, run_append, hr]
        exact hr2


/-! ## C4: the identifier matcher -/

theorem matchAt_branchMatcher_some (t whole : Str) (caps : Caps)
    (h : branchMatcher.matchAt t = some (whole, caps)) :
    ∃ pfx t1 key rest, t = pfx ++ t1 ∧ (∀ x ∈ pfx, isWordChar x = false) ∧
      keyAt t1 = some (key, rest) ∧ caps = [(1, key)] := by
  obtain ⟨pfx, t1, ht, hpfx, hcore⟩ := branchMatcher_sound _ _ _ _ h
  rw [keyCore_run _ (fun _ _ => by simp)] at hcore
  cases hk : keyAt t1 with
  | none => rw [hk] at hcore; simp at hcore
  | some kr =>
    obtain ⟨key, rest⟩ := kr
    rw [hk] at hcore
    simp only [Option.some.injEq, Prod.mk.injEq] at hcore
    exact ⟨pfx, t1, key, rest, ht, hpfx, hk, hcore.2.symm⟩

theorem matchAt_branchMatcher_none (t : Str) (h : branchMatcher.matchAt t = none) :
    keyAt t = none := by
  have hcore := branchMatcher_none _ _ _ h
  rw [keyCore_run _ (fun _ _ => by simp)] at hcore
  cases hk : keyAt t with
  | none => rfl
  | some kr => rw [hk] at hcore; simp at hcore

/-- C4: branchMatcher yields a key exactly when the line contains a
substring of word characters, a hyphen and digits; the key it captures is the
leftmost such occurrence, made of the maximal run of word characters, the
hyphen and the maximal run of digits. -/
theorem branchMatcher_captures_leftmost_key (line : Str) :
    (2 ≤ (branchMatcher.FindStringSubmatch 1 line).length ↔ ∃ i, KeyStartsAt line i) ∧
    (2 ≤ (branchMatcher.FindStringSubmatch 1 line).length →
      ∃ pre w d post, line = pre ++ (w ++ '-' :: d) ++ post ∧
        (branchMatcher.FindStringSubmatch 1 line).getD 1 [] = w ++ '-' :: d ∧
        KeyShape w d ∧
        (∀ i, i < pre.length → ¬ KeyStartsAt line i) ∧
        (∀ c, pre.getLast? = some c → isWordChar c = false) ∧
        (∀ c, post.head? = some c → isDigit c = false)) := by
  rw [FindStringSubmatch_one]
  cases hs : branchMatcher.search line with
  | none =>
    refine ⟨⟨fun h => by simp at h, ?_⟩, fun h => by simp at h⟩
    rintro ⟨i, pre, w, d, post, -, hshape, hline⟩
    have hm := search_none _ _ hs pre (w ++ '-' :: d ++ post) (by simp [hline])
    exact absurd (matchAt_branchMatcher_none _ hm) (keyAt_complete w d post hshape)
  | some r =>
    obtain ⟨whole, caps⟩ := r
    obtain ⟨pre0, t0, hline, hmatch, hmin⟩ := search_some _ _ _ hs
    obtain ⟨pfx, t1, key, rest, ht0, hpfx, hkey, hcaps⟩ := matchAt_branchMatcher_some _ _ _ hmatch
    obtain ⟨w, d, hshape, hkeyeq, ht1, hrest⟩ := keyAt_spec _ _ _ hkey
    have hfull : line = (pre0 ++ pfx) ++ (w ++ '-' :: d) ++ rest := by
      rw [hline, ht0, ht1, hkeyeq]; simp
    have hleft : ∀ i, i < (pre0 ++ pfx).length → ¬ KeyStartsAt line i := by
      rintro i hi ⟨p, w2, d2, post2, hp, hshape2, hline2⟩
      by_cases hlt : i < pre0.length
      · have hm := hmin p (w2 ++ '-' :: d2 ++ post2) (by simp [hline2]) (by omega)
        exact absurd (matchAt_branchMatcher_none _ hm) (keyAt_complete w2 d2 post2 hshape2)
      · obtain ⟨hw2, hw2all, -, -⟩ := hshape2
        cases w2 with
        | nil => exact absurd rfl hw2
        | cons x w3 =>
          have hx : x ∈ pfx := by
            refine mem_of_two_splits pre0 pfx ((w ++ '-' :: d) ++ rest) p
              (w3 ++ '-' :: d2 ++ post2) x ?_ (by omega) (by omega)
            rw [← List.append_assoc, ← hfull, hline2]; simp
          have := hpfx x hx
          rw [hw2all x (by simp)] at this
          exact absurd this (by simp)
    have hstart : KeyStartsAt line (pre0 ++ pfx).length :=
      ⟨pre0 ++ pfx, w, d, rest, rfl, hshape, hfull⟩
    refine ⟨⟨fun _ => ⟨_, hstart⟩, fun _ => by simp⟩, fun _ => ?_⟩
    refine ⟨pre0 ++ pfx, w, d, rest, hfull, by simp [hcaps, hkeyeq], hshape, hleft, ?_, hrest⟩
    intro c hc
    by_contra hword
    have hword1 : isWordChar c = true := by simpa using hword
    obtain ⟨q, hq⟩ : ∃ q, pre0 ++ pfx = q ++ [c] := by
      have := List.getLast?_eq_some_iff.1 hc
      exact this
    refine hleft q.length (by rw [hq]; simp) ⟨q, c :: w, d, rest, rfl, ⟨by simp, ?_, hshape.2.2⟩, ?_⟩
    · intro y hy
      rcases List.mem_cons.1 hy with rfl | hy
      · exact hword1
      · exact hshape.2.1 y hy
    · rw [hfull, hq]; simp

/-- The line of scenario 1 holds a key and branchMatcher captures it. -/
theorem branchMatcher_captures_leftmost_key_witness :
    ∃ pre w d post, "feature/ABC-123-fix-bug".toList = pre ++ (w ++ '-' :: d) ++ post ∧
      (branchMatcher.FindStringSubmatch 1 "feature/ABC-123-fix-bug".toList).getD 1 [] =
        w ++ '-' :: d ∧
      KeyShape w d ∧
      (∀ i, i < pre.length → ¬ KeyStartsAt "feature/ABC-123-fix-bug".toList i) ∧
      (∀ c, pre.getLast? = some c → isWordChar c = false) ∧
      (∀ c, post.head? = some c → isDigit c = false) :=
  (branchMatcher_captures_leftmost_key "feature/ABC-123-fix-bug".toList).2 (by decide)


/-! ## C1, C5: the fallback and the lookup of getBranchDescription -/

/-- C1: when the trimmed line holds no identifier, or the lookup fails at any
step (request construction, transport, status other than 200, body read, JSON
decoding), getBranchDescription returns exactly the trimmed line. -/
theorem getBranchDescription_fallback (env : Env) (nc : Bool) (line : Str) (js : jiraSettings)
    (inc : Bool)
    (h : capturedKey (TrimSpace line) = none ∨
      ∃ key, capturedKey (TrimSpace line) = some key ∧
        ((∃ e, env.urlError (issueUrl js key) = some e) ∨
         (∃ e, env.Do (lookupRequest js key) = .error e) ∨
         (∃ resp, env.Do (lookupRequest js key) = .ok resp ∧
            (resp.StatusCode ≠ 200 ∨ (∃ e, resp.Body = .error e) ∨
              ∃ body e, resp.Body = .ok body ∧ (Unmarshal body {}).2 = some e)))) :
    (getBranchDescription env nc line js inc).2 = TrimSpace line := by
  rcases h with h | ⟨key, hk, h⟩
  · rw [gbd_nomatch _ _ _ _ _ h]
  · cases hu : env.urlError (issueUrl js key) with
    | some e => rw [gbd_request_err _ _ _ _ _ _ _ hk hu]
    | none =>
      rcases h with ⟨e, he⟩ | ⟨e, he⟩ | ⟨resp, hdo, h⟩
      · rw [hu] at he; exact absurd he (by simp)
      · rw [gbd_transport_err _ _ _ _ _ _ _ hk hu he]
      · by_cases hs : resp.StatusCode = 200
        · rcases h with h | ⟨e, he⟩ | ⟨body, e, hb, hd⟩
          · exact absurd hs h
          · rw [gbd_read_err _ _ _ _ _ _ _ _ hk hu hdo hs he]
          · rw [gbd_decode_err _ _ _ _ _ _ _ _ _ hk hu hdo hs hb hd]
        · rw [gbd_status _ _ _ _ _ _ _ hk hu hdo hs]

/-- Scenario 4: the tracker answers 404 and the trimmed line comes back. -/
theorem getBranchDescription_fallback_witness :
    (getBranchDescription (envOf (.ok (respOf 404 scenarioBody))) true scenarioLine scenarioJs
      true).2 = "feature/ABC-123-fix-bug".toList :=
  getBranchDescription_fallback (envOf (.ok (respOf 404 scenarioBody))) true scenarioLine
    scenarioJs true
    (Or.inr ⟨"ABC-123".toList, by rfl,
      Or.inr (Or.inr ⟨respOf 404 scenarioBody, rfl, Or.inl (by decide)⟩)⟩)

theorem lookupRequest_eq (js : jiraSettings) (key : Str) :
    lookupRequest js key =
      { method := "GET".toList,
        url := js.rootUrl ++ "/rest/api/latest/issue/".toList ++ key,
        basicAuth := if 0 < js.user.length && 0 < js.pw.length then some (js.user, js.pw)
          else none } := by
  unfold lookupRequest setAuth issueUrl
  cases (decide (0 < js.user.length) && decide (0 < js.pw.length)) <;> rfl

theorem lookups_trace (env : Env) (nc : Bool) (line : Str) (js : jiraSettings) (inc : Bool)
    (key : Str) (hk : capturedKey (TrimSpace line) = some key) :
    lookups (getBranchDescription env nc line js inc).1 =
      .newRequest "GET".toList (issueUrl js key) ::
        (match env.urlError (issueUrl js key) with
          | some _ => []
          | none => [.send (lookupRequest js key)]) := by
  cases hu : env.urlError (issueUrl js key) with
  | some e => rw [gbd_request_err _ _ _ _ _ _ _ hk hu]; simp [lookups]
  | none =>
    cases hdo : env.Do (lookupRequest js key) with
    | error e => rw [gbd_transport_err _ _ _ _ _ _ _ hk hu hdo]; simp [lookups]
    | ok resp =>
      by_cases hs : resp.StatusCode = 200
      · cases hb : resp.Body with
        | error e => rw [gbd_read_err _ _ _ _ _ _ _ _ hk hu hdo hs hb]; simp [lookups]
        | ok body =>
          cases hd : (Unmarshal body {}).2 with
          | some e => rw [gbd_decode_err _ _ _ _ _ _ _ _ _ hk hu hdo hs hb hd]; simp [lookups]
          | none => rw [gbd_ok _ _ _ _ _ _ _ _ hk hu hdo hs hb hd]; simp [lookups]
      · rw [gbd_status _ _ _ _ _ _ _ hk hu hdo hs]; simp [lookups]

/-- C5, as stated, fails: with the root URL a single colon the line ABC-1
holds a key, but http.NewRequest rejects the URL (it has no scheme), the error
is printed and no request is sent: no HTTP GET is made for a matching line. -/
theorem one_lookup_counterexample :
    capturedKey (TrimSpace "ABC-1\n".toList) = some "ABC-1".toList ∧
    (getBranchDescription rejectingEnv true "ABC-1\n".toList colonJs true).1 =
      [.newRequest "GET".toList ":/rest/api/latest/issue/ABC-1".toList,
        .stdout (.Println [.err missingScheme])] ∧
    ∀ req, Event.send req ∉
      (getBranchDescription rejectingEnv true "ABC-1\n".toList colonJs true).1 := by
  have e : (getBranchDescription rejectingEnv true "ABC-1\n".toList colonJs true).1 =
      [.newRequest "GET".toList ":/rest/api/latest/issue/ABC-1".toList,
        .stdout (.Println [.err missingScheme])] := by rfl
  refine ⟨by rfl, e, ?_⟩
  intro req h
  rw [e] at h
  simp at h

/-- C5, amended: a trimmed line without an identifier makes
getBranchDescription build and send nothing; a trimmed line with an identifier
makes it build exactly one request, a GET of the root URL followed by
/rest/api/latest/issue/ and the captured key, with basic authentication only
when user and password are both non-empty, and send that request exactly
once, unless http.NewRequest rejects the URL, in which case nothing is sent. -/
theorem getBranchDescription_one_lookup (env : Env) (nc : Bool) (line : Str) (js : jiraSettings)
    (inc : Bool) :
    (capturedKey (TrimSpace line) = none →
      (getBranchDescription env nc line js inc).1 = []) ∧
    ∀ key, capturedKey (TrimSpace line) = some key →
      lookups (getBranchDescription env nc line js inc).1 =
        .newRequest "GET".toList (js.rootUrl ++ "/rest/api/latest/issue/".toList ++ key) ::
          (match env.urlError (js.rootUrl ++ "/rest/api/latest/issue/".toList ++ key) with
            | some _ => []
            | none =>
              [.send { method := "GET".toList,
                       url := js.rootUrl ++ "/rest/api/latest/issue/".toList ++ key,
                       basicAuth :=
                         if 0 < js.user.length && 0 < js.pw.length then some (js.user, js.pw)
                         else none }]) := by
  refine ⟨fun hk => by rw [gbd_nomatch _ _ _ _ _ hk], fun key hk => ?_⟩
  have h := lookups_trace env nc line js inc key hk
  rw [lookupRequest_eq] at h
  exact h

/-- Scenario 1, without and with a user and a password: one GET of
https://jira.example.com/rest/api/latest/issue/ABC-123 is built and sent. -/
theorem getBranchDescription_one_lookup_witness :
    lookups (getBranchDescription (envOf (.ok (respOf 200 scenarioBody))) true scenarioLine
        scenarioJs true).1 =
      [.newRequest "GET".toList "https://jira.example.com/rest/api/latest/issue/ABC-123".toList,
        .send { method := "GET".toList,
                url := "https://jira.example.com/rest/api/latest/issue/ABC-123".toList,
                basicAuth := none }] ∧
    lookups (getBranchDescription (envOf (.ok (respOf 200 scenarioBody))) true scenarioLine
        authJs true).1 =
      [.newRequest "GET".toList "https://jira.example.com/rest/api/latest/issue/ABC-123".toList,
        .send { method := "GET".toList,
                url := "https://jira.example.com/rest/api/latest/issue/ABC-123".toList,
                basicAuth := some ("u".toList, "p".toList) }] ∧
    (getBranchDescription (envOf (.ok (respOf 200 scenarioBody))) true
        "random text, no ticket\n".toList scenarioJs true).1 = [] :=
  ⟨((getBranchDescription_one_lookup (envOf (.ok (respOf 200 scenarioBody))) true scenarioLine
      scenarioJs true).2 "ABC-123".toList (by rfl)).trans (by rfl),
    ((getBranchDescription_one_lookup (envOf (.ok (respOf 200 scenarioBody))) true scenarioLine
      authJs true).2 "ABC-123".toList (by rfl)).trans (by rfl),
    (getBranchDescription_one_lookup (envOf (.ok (respOf 200 scenarioBody))) true
      "random text, no ticket\n".toList scenarioJs true).1 (by rfl)⟩

/-! ## C2, C6, C7: the description -/

/-- C2, as stated, fails: for a record without a key the code also trims the
leading space, and a status name ending in a percent sign is rewritten by
Sprintf; in both cases the result differs from the specified string. -/
theorem description_claim_counterexample :
    ((getBranchDescription (envOf (.ok (respOf 200 noKeyBody))) true "ABC-1\n".toList scenarioJs
        true).2 = "(Open) x https://jira.example.com/browse/".toList ∧
      specDescription scenarioJs.rootUrl (Unmarshal (.valid noKeyBody) {}).1 =
        " (Open) x https://jira.example.com/browse/".toList) ∧
    ((getBranchDescription (envOf (.ok (respOf 200 percentBody))) true "ABC-1\n".toList
        scenarioJs true).2 =
          "ABC-1 (100%!(NOVERB)) x https://jira.example.com/browse/ABC-1".toList ∧
      specDescription scenarioJs.rootUrl (Unmarshal (.valid percentBody) {}).1 =
        "ABC-1 (100%) x https://jira.example.com/browse/ABC-1".toList) :=
  ⟨⟨by rfl, by rfl⟩, ⟨by rfl, by rfl⟩⟩

/-- C2, amended: for a line with an identifier, a 200 answer and a body that
decodes to a record, with styling off and URLs on, when neither the state text
nor the browse URL holds a percent sign, getBranchDescription returns key,
state in parentheses, summary and browse URL, trimmed of whitespace at both
ends; the state is the status name, followed by colon, space and resolution
name exactly when the resolution date is non-empty. -/
theorem getBranchDescription_description (env : Env) (line : Str) (js : jiraSettings)
    (key : Str) (resp : Response) (body : JsonText) (t : TicketInfo)
    (hk : capturedKey (TrimSpace line) = some key)
    (hu : env.urlError (issueUrl js key) = none)
    (hdo : env.Do (lookupRequest js key) = .ok resp) (hs : resp.StatusCode = 200)
    (hb : resp.Body = .ok body) (hd : Unmarshal body {} = (t, none))
    (hstate : '%' ∉ stateText t) (hurl : '%' ∉ js.rootUrl ++ "/browse/".toList ++ t.Key) :
    (getBranchDescription env true line js true).2 =
      TrimSpace (t.Key ++ " (".toList ++ stateText t ++ ") ".toList ++ t.Fields.Summary ++
        " ".toList ++ (js.rootUrl ++ "/browse/".toList ++ t.Key)) := by
  rw [gbd_ok _ _ _ _ _ _ _ _ hk hu hdo hs hb (by rw [hd]), hd]
  exact Description_plain { t with URL := js.rootUrl ++ "/browse/".toList ++ t.Key } hstate hurl

/-- Scenario 1: the record ABC-123, In Progress, Fix bug. -/
theorem getBranchDescription_description_witness :
    (getBranchDescription (envOf (.ok (respOf 200 scenarioBody))) true scenarioLine scenarioJs
      true).2 = "ABC-123 (In Progress) Fix bug https://jira.example.com/browse/ABC-123".toList :=
  (getBranchDescription_description (envOf (.ok (respOf 200 scenarioBody))) scenarioLine
    scenarioJs "ABC-123".toList (respOf 200 scenarioBody) (.valid scenarioBody)
    (Unmarshal (.valid scenarioBody) {}).1 (by rfl) rfl rfl rfl rfl (by rfl) (by decide)
    (by decide)).trans (by rfl)

theorem dropWhile_append_of_mem {α : Type} (p : α → Bool) (a s : List α) (x : α) (hx : x ∈ a)
    (hp : p x = false) : (a ++ s).dropWhile p = a.dropWhile p ++ s := by
  induction a with
  | nil => simp at hx
  | cons y ys ih =>
    by_cases hy : p y
    · rcases List.mem_cons.1 hx with rfl | hmem
      · rw [hp] at hy; exact absurd hy (by simp)
      · simp only [List.cons_append, List.dropWhile_cons_of_pos hy]
        exact ih hmem
    · simp [List.dropWhile_cons_of_neg hy]

/-- C6 fails on the code when colors are enabled: with URL inclusion off, the
description of every record still ends with the space and the two cyan escape
sequences wrapped around the empty URL, which TrimSpace does not remove. -/
theorem Description_without_url_leaks_when_colored (ti : TicketInfo) :
    " \x1b[36m\x1b[0m".toList <:+ TicketInfo.Description false ti false ∧
    TicketInfo.Description false exampleTicket false =
      "ABC-123 (\x1b[31mIn Progress\x1b[0m) Fix bug \x1b[36m\x1b[0m".toList := by
  refine ⟨?_, by rfl⟩
  unfold TicketInfo.Description
  simp only [Bool.not_false, if_true]
  generalize (if 0 < ti.Fields.Resolutiondate.length then
      (green, ti.Fields.Status.Name ++ ": ".toList ++ ti.Fields.Resolution.Name)
    else (red, ti.Fields.Status.Name) : (Bool → Str → Str) × Str) = styled
  have hc : cyan false [] = "\x1b[36m\x1b[0m".toList := by rfl
  rw [hc]
  have hsplit : ti.Key ++ " (".toList ++ styled.1 false styled.2 ++ ") ".toList ++
      ti.Fields.Summary ++ " ".toList ++ "\x1b[36m\x1b[0m".toList =
      (ti.Key ++ " (".toList ++ styled.1 false styled.2 ++ ") ".toList ++ ti.Fields.Summary) ++
        " \x1b[36m\x1b[0m".toList := by
    simp
  rw [hsplit]
  unfold TrimSpace
  rw [dropWhile_append_of_mem unicodeIsSpace _ _ '(' (by simp) (by decide)]
  have hlast : " \x1b[36m\x1b[0m".toList = " \x1b[36m\x1b[0".toList ++ ['m'] := by rfl
  rw [hlast, ← List.append_assoc, List.rdropWhile_concat_neg _ _ _ (by decide)]
  exact ⟨_, (List.append_assoc _ _ _).symm⟩

/-- C7, as stated, fails: for the body that is the empty JSON object the code
returns a description built from empty fields, not the trimmed line. -/
theorem empty_object_counterexample :
    (getBranchDescription (envOf (.ok (respOf 200 (.obj [])))) true "ABC-1\n".toList scenarioJs
      true).2 = "()  https://jira.example.com/browse/".toList ∧
    (getBranchDescription (envOf (.ok (respOf 200 (.obj [])))) true "ABC-1\n".toList scenarioJs
      true).2 ≠ TrimSpace "ABC-1\n".toList :=
  ⟨by rfl, by decide⟩

/-- C7, amended: for a line with an identifier and a 200 answer whose body is
valid JSON, a missing field is no error: the empty object decodes to the
record with every field empty, and whenever decoding reports no error
getBranchDescription returns Description(includeUrls) of the decoded record
with its browse URL; it returns the trimmed line only when decoding reports an
error. -/
theorem getBranchDescription_missing_fields (env : Env) (nc : Bool) (line : Str)
    (js : jiraSettings) (inc : Bool) (key : Str) (resp : Response) (body : JsonText)
    (hk : capturedKey (TrimSpace line) = some key)
    (hu : env.urlError (issueUrl js key) = none)
    (hdo : env.Do (lookupRequest js key) = .ok resp) (hs : resp.StatusCode = 200)
    (hb : resp.Body = .ok body) :
    Unmarshal (.valid (.obj [])) {} = ({}, none) ∧
    ((Unmarshal body {}).2 = none →
      (getBranchDescription env nc line js inc).2 =
        TicketInfo.Description nc
          { (Unmarshal body {}).1 with
            URL := js.rootUrl ++ "/browse/".toList ++ (Unmarshal body {}).1.Key } inc) ∧
    (∀ e, (Unmarshal body {}).2 = some e →
      (getBranchDescription env nc line js inc).2 = TrimSpace line) := by
  refine ⟨Unmarshal_no_member [] (by simp), fun hd => ?_, fun e hd => ?_⟩
  · rw [gbd_ok _ _ _ _ _ _ _ _ hk hu hdo hs hb hd]
  · rw [gbd_decode_err _ _ _ _ _ _ _ _ _ hk hu hdo hs hb hd]

/-- The empty object and the object with only a key, styling off and URLs on:
both are described, with the missing fields empty. -/
theorem getBranchDescription_missing_fields_witness :
    (getBranchDescription (envOf (.ok (respOf 200 (.obj [])))) true "ABC-1\n".toList scenarioJs
      true).2 = "()  https://jira.example.com/browse/".toList ∧
    (getBranchDescription (envOf (.ok (respOf 200 keyOnlyBody))) true "ABC-1\n".toList
      scenarioJs true).2 = "X-1 ()  https://jira.example.com/browse/X-1".toList :=
  ⟨((getBranchDescription_missing_fields (envOf (.ok (respOf 200 (.obj [])))) true
      "ABC-1\n".toList scenarioJs true "ABC-1".toList (respOf 200 (.obj [])) (.valid (.obj []))
      (by rfl) rfl rfl rfl rfl).2.1 (by rfl)).trans (by rfl),
    ((getBranchDescription_missing_fields (envOf (.ok (respOf 200 keyOnlyBody))) true
      "ABC-1\n".toList scenarioJs true "ABC-1".toList (respOf 200 keyOnlyBody)
      (.valid keyOnlyBody) (by rfl) rfl rfl rfl rfl).2.1 (by rfl)).trans (by rfl)⟩

/-! ## C8, C9: standard output and the flags -/

/-- C8, as stated, fails: when the tracker cannot be reached, the task of the
line ABC-1 writes two lines to standard output, the error and then the
fallback line. -/
theorem diagnostics_on_stdout_counterexample :
    taskWrites (worldOf (envOf (.error connectionRefused))) 0 "ABC-1\n".toList =
      [.Println [.err connectionRefused], .Println [.str "ABC-1".toList]] ∧
    taskWrites (worldOf (envOf (.error connectionRefused))) 0 "ABC-1\n".toList ≠
      [.Println [.str "ABC-1".toList]] :=
  ⟨by rfl, by decide⟩

/-- C8, amended: for a line whose lookup fails with a transport, body-read or
decode error, the task reports the error on standard output itself: it writes
the error and a newline, then its fallback line and a newline, nothing else. -/
theorem task_reports_error_on_stdout (w : World) (i : Nat) (line key : Str) (e : GoError)
    (hk : capturedKey (TrimSpace line) = some key)
    (hu : (w.env i).urlError (issueUrl w.setup.js key) = none)
    (h : (w.env i).Do (lookupRequest w.setup.js key) = .error e ∨
      ∃ resp, (w.env i).Do (lookupRequest w.setup.js key) = .ok resp ∧ resp.StatusCode = 200 ∧
        (resp.Body = .error e ∨
          ∃ body, resp.Body = .ok body ∧ (Unmarshal body {}).2 = some e)) :
    taskWrites w i line = [.Println [.err e], .Println [.str (TrimSpace line)]] := by
  unfold taskWrites diagnostics ticketInfo
  rcases h with h | ⟨resp, hdo, hs, h | ⟨body, hb, hd⟩⟩
  · rw [gbd_transport_err _ _ _ _ _ _ _ hk hu h]; rfl
  · rw [gbd_read_err _ _ _ _ _ _ _ _ hk hu hdo hs h]; rfl
  · rw [gbd_decode_err _ _ _ _ _ _ _ _ _ hk hu hdo hs hb hd]; rfl

/-- The tracker cannot be reached. -/
theorem task_reports_error_on_stdout_witness :
    taskWrites (worldOf (envOf (.error connectionRefused))) 0 "ABC-1\n".toList =
      [.Println [.err connectionRefused], .Println [.str (TrimSpace "ABC-1\n".toList)]] :=
  task_reports_error_on_stdout (worldOf (envOf (.error connectionRefused))) 0 "ABC-1\n".toList
    "ABC-1".toList connectionRefused (by rfl) rfl (Or.inl rfl)

theorem flagParse_noLinks (args : List FlagSetting) (v : MainVars) :
    (args.foldl FlagSetting.store v).noLinks = v.noLinks := by
  induction args generalizing v with
  | nil => rfl
  | cons a rest ih =>
    rw [List.foldl_cons, ih]
    cases a <;> rfl

/-- C9 fails on the code: whatever the command line, every task is called with
includeUrls true; the flag no-links stores into noColor, so it leaves noLinks
false and switches the colors off instead. -/
theorem no_links_flag_does_not_hide_urls (w : World) :
    w.setup.includeUrls = true ∧
    (flagParse [.no_links true]).noLinks = false ∧
    (flagParse [.no_links true]).noColor = true := by
  refine ⟨?_, rfl, rfl⟩
  simp [World.setup, flagParse, flagParse_noLinks]

/-! ## C3, C10: the read loop and the tasks -/

/-- C3, as stated, fails: on the empty input main launches one task and one
line is written, and a lookup that cannot reach the tracker adds a second
line for the single input line ABC-1. -/
theorem one_line_per_input_counterexample :
    (main.run (worldOf (envOf (.ok (respOf 404 scenarioBody))))
        ((worldOf (envOf (.ok (respOf 404 scenarioBody)))).init [])
        [.main, .task 0, .task 0, .main]).map (fun s => (s.pc, s.tasks.length, s.stdout)) =
      some (.returned, 1, [.Println [.str []]]) ∧
    (main.run (worldOf (envOf (.error connectionRefused)))
        ((worldOf (envOf (.error connectionRefused))).init "ABC-1".toList)
        [.main, .task 0, .task 0, .task 0, .main]).map
          (fun s => (s.pc, s.tasks.length, s.stdout)) =
      some (.returned, 1, [.Println [.err connectionRefused], .Println [.str "ABC-1".toList]]) :=
  ⟨by rfl, by rfl⟩

/-- C3, amended: for an input of N lines whose last line is non-empty and
unterminated, ended by io.EOF, main can return, and in every run in which it
returns it has launched exactly N tasks, one per line in order, and standard
output holds, in some order, the N result lines of the tasks together with the
errors their lookups printed. -/
theorem main_tasks_and_output (w : World) (ls : List Str) (last : Str)
    (hls : ∀ l ∈ ls, '\n' ∉ l) (hlast : '\n' ∉ last) (hne : last ≠ [])
    (heof : w.stdinErr = none) :
    (∃ sched s, main.run w (w.init (ls.flatMap (fun l => l ++ ['\n']) ++ last)) sched = some s ∧
      s.pc = .returned) ∧
    ∀ sched s, main.run w (w.init (ls.flatMap (fun l => l ++ ['\n']) ++ last)) sched = some s →
      s.pc = .returned →
      s.tasks.length = ls.length + 1 ∧
      s.tasks.map (fun t => t.line) = ls.map (fun l => l ++ ['\n']) ++ [last] ∧
      s.stdout.Perm
        ((ls.map (fun l => l ++ ['\n']) ++ [last]).enum.map
            (fun p => Write.Println [.str (ticketInfo w p.1 p.2)]) ++
          (ls.map (fun l => l ++ ['\n']) ++ [last]).enum.flatMap
            (fun p => diagnostics w p.1 p.2)) := by
  have _ := hne
  refine ⟨main_can_return w heof _ _ (le_refl _) rfl rfl, ?_⟩
  intro sched s hrun hret
  have hinv := Inv_run w _ sched _ s (Inv_init w _) hrun
  have hlines := readLines_stream ls last hls hlast
  have hfin := (hinv.finished (Or.inr hret)).2
  rw [hlines] at hfin
  have hmap : s.tasks.map (fun t => t.line) = ls.map (fun l => l ++ ['\n']) ++ [last] := by
    have := congrArg (List.map Prod.snd) hfin
    simpa [List.map_map, Function.comp_def, List.enum_map_snd] using this
  refine ⟨?_, hmap, ?_⟩
  · have := congrArg List.length hmap
    simpa using this
  · have hout := returned_stdout w _ s hinv hret
    rw [hlines] at hout
    exact hout.trans (perm_flatMap_append_singleton _ _ _)

/-- The input a, newline, b: two tasks, two lines, the second written first. -/
theorem main_tasks_and_output_witness :
    main.run (worldOf (envOf (.ok (respOf 404 scenarioBody))))
        ((worldOf (envOf (.ok (respOf 404 scenarioBody)))).init
          (["a".toList].flatMap (fun l => l ++ ['\n']) ++ "b".toList))
        [.main, .main, .task 1, .task 0, .task 0, .task 1, .main] = some twoLinesFinal ∧
    twoLinesFinal.tasks.length = 2 ∧
    twoLinesFinal.tasks.map (fun t => t.line) = ["a\n".toList, "b".toList] ∧
    twoLinesFinal.stdout.Perm
      ((["a".toList].map (fun l => l ++ ['\n']) ++ ["b".toList]).enum.map
          (fun p => Write.Println
            [.str (ticketInfo (worldOf (envOf (.ok (respOf 404 scenarioBody)))) p.1 p.2)]) ++
        (["a".toList].map (fun l => l ++ ['\n']) ++ ["b".toList]).enum.flatMap
          (fun p => diagnostics (worldOf (envOf (.ok (respOf 404 scenarioBody)))) p.1 p.2)) :=
  ⟨by rfl,
    (main_tasks_and_output (worldOf (envOf (.ok (respOf 404 scenarioBody)))) ["a".toList]
      "b".toList (by decide) (by decide) (by decide) rfl).2
      [.main, .main, .task 1, .task 0, .task 0, .task 1, .main] twoLinesFinal (by rfl) rfl⟩

/-- C10: main returns only after standard input is exhausted and every task
it launched, one per line read, has written all its output, its result line
included, and has called Done. -/
theorem main_returns_after_all_tasks (w : World) (stdin : Str) (sched : List Label) (s : State)
    (hrun : main.run w (w.init stdin) sched = some s) (hret : s.pc = .returned) :
    s.input = [] ∧
    s.tasks.map (fun t => (t.id, t.line)) = (readLines stdin).enum ∧
    ∀ t ∈ s.tasks, t.done = true ∧ t.pending = [] ∧
      t.written = taskWrites w t.id t.line ∧
      (∀ x ∈ taskWrites w t.id t.line, x ∈ s.stdout) ∧
      Write.Println [.str (ticketInfo w t.id t.line)] ∈ s.stdout := by
  have hinv := Inv_run w _ sched _ s (Inv_init w _) hrun
  have hfin := hinv.finished (Or.inr hret)
  refine ⟨hfin.1, hfin.2, ?_⟩
  intro t ht
  obtain ⟨hd, hp, hw⟩ := returned_all_done w _ s hinv hret t ht
  have hout : s.stdout.Perm (s.tasks.flatMap (fun t => t.written)) := by
    rcases hinv.out with ho | ho
    · rw [hret] at ho; exact absurd ho (by decide)
    · exact Multiset.coe_eq_coe.1 ho
  have hmem : ∀ x ∈ taskWrites w t.id t.line, x ∈ s.stdout := by
    intro x hx
    rw [hout.mem_iff, List.mem_flatMap]
    exact ⟨t, ht, by rw [hw]; exact hx⟩
  exact ⟨hd, hp, hw, hmem, hmem _ (by simp [taskWrites])⟩

/-- The single unterminated line ABC-1 and a tracker that answers 404. -/
theorem main_returns_after_all_tasks_witness :
    main.run (worldOf (envOf (.ok (respOf 404 scenarioBody))))
        ((worldOf (envOf (.ok (respOf 404 scenarioBody)))).init "ABC-1".toList)
        [.main, .task 0, .task 0, .main] = some oneLineFinal ∧
    oneLineFinal.input = [] ∧
    oneLineFinal.tasks.map (fun t => (t.id, t.line)) = (readLines "ABC-1".toList).enum ∧
    ∀ t ∈ oneLineFinal.tasks, t.done = true ∧ t.pending = [] ∧
      t.written = taskWrites (worldOf (envOf (.ok (respOf 404 scenarioBody)))) t.id t.line ∧
      (∀ x ∈ taskWrites (worldOf (envOf (.ok (respOf 404 scenarioBody)))) t.id t.line,
        x ∈ oneLineFinal.stdout) ∧
      Write.Println [.str (ticketInfo (worldOf (envOf (.ok (respOf 404 scenarioBody)))) t.id
        t.line)] ∈ oneLineFinal.stdout :=
  ⟨by rfl,
    main_returns_after_all_tasks (worldOf (envOf (.ok (respOf 404 scenarioBody))))
      "ABC-1".toList [.main, .task 0, .task 0, .main] oneLineFinal (by rfl) rfl⟩

end JiraBranch
